import Mathlib

/-!
Shallow embedding of the `redis_info_provider` package (RedisLabs), covering:

* `redis_shard.py` — the `RedisShard` entity and its adaptive-pacing policy
  (`_update_interval`, the `info` property setter, `polling_interval`);
* `shard_pub.py` — the `_ShardPublisher` registry (live-shard dict plus
  ADDED/REMOVED subscriber lists);
* `info_servicer.py` — the `InfoProviderServicer` query engine
  (`_filter_info`, `_get_shard_with_info`, `GetInfos`).

Python dictionaries are modelled as insertion-ordered association lists with
unique keys (`alGet` / `alSet` / `alRemove` mirror `d[k]`, `d[k] = v` and
`d.pop(k)`); Python floats are modelled as exact rationals; exceptions are
modelled with `Except PyErr`; callbacks are opaque identifiers whose
invocations are recorded as an event trace.
-/

namespace RedisInfoProvider

/-- A value stored in an INFO dictionary: a string, a number (Python ints and
floats are both modelled as exact rationals), or a nested dictionary (used for
the `meta` sub-record). -/
inductive Val : Type where
  | str : String → Val
  | num : ℚ → Val
  | dict : List (String × Val) → Val

mutual

/-- Decidable equality for `Val` (hand-written because of the nested list). -/
def Val.decEq : (a b : Val) → Decidable (a = b)
  | .str a, .str b =>
      if h : a = b then isTrue (congrArg Val.str h)
      else isFalse (fun hc => h (Val.str.inj hc))
  | .num a, .num b =>
      if h : a = b then isTrue (congrArg Val.num h)
      else isFalse (fun hc => h (Val.num.inj hc))
  | .dict a, .dict b =>
      match Val.decEqList a b with
      | isTrue h => isTrue (congrArg Val.dict h)
      | isFalse h => isFalse (fun hc => h (Val.dict.inj hc))
  | .str _, .num _ => isFalse (fun hc => Val.noConfusion hc)
  | .str _, .dict _ => isFalse (fun hc => Val.noConfusion hc)
  | .num _, .str _ => isFalse (fun hc => Val.noConfusion hc)
  | .num _, .dict _ => isFalse (fun hc => Val.noConfusion hc)
  | .dict _, .str _ => isFalse (fun hc => Val.noConfusion hc)
  | .dict _, .num _ => isFalse (fun hc => Val.noConfusion hc)

/-- Decidable equality for lists of `Val` dictionary entries. -/
def Val.decEqList : (a b : List (String × Val)) → Decidable (a = b)
  | [], [] => isTrue rfl
  | [], _ :: _ => isFalse (fun hc => List.noConfusion hc)
  | _ :: _, [] => isFalse (fun hc => List.noConfusion hc)
  | (k, v) :: r, (k2, v2) :: r2 =>
      if hk : k = k2 then
        match Val.decEq v v2, Val.decEqList r r2 with
        | isTrue hv, isTrue hr => isTrue (by rw [hk, hv, hr])
        | isFalse hv, _ =>
            isFalse (by
              intro hc
              injection hc with h1 _
              injection h1 with _ hv2
              exact hv hv2)
        | _, isFalse hr =>
            isFalse (by
              intro hc
              injection hc with _ h2
              exact hr h2)
      else
        isFalse (by
          intro hc
          injection hc with h1 _
          injection h1 with hk2 _
          exact hk hk2)

end

instance : DecidableEq Val := Val.decEq

/-- Python exceptions relevant to the modelled code: `KeyError` (carrying its
message) and `TypeError` (raised e.g. when subscripting a non-dict). -/
inductive PyErr : Type where
  | keyError : String → PyErr
  | typeError : PyErr
  deriving DecidableEq

/-- Dictionary lookup `d[key]` on an insertion-ordered association list:
returns the value at the first occurrence of `key`, or `none` (Python:
`KeyError`) when absent. -/
def alGet {α : Type} : List (String × α) → String → Option α
  | [], _ => none
  | (k, v) :: rest, key => if k = key then some v else alGet rest key

/-- Dictionary assignment `d[key] = v`: updates the value in place (keeping
the key's position) when present, appends a new entry otherwise — exactly the
semantics of insertion-ordered Python dicts. -/
def alSet {α : Type} : List (String × α) → String → α → List (String × α)
  | [], key, v => [(key, v)]
  | (k, w) :: rest, key, v =>
      if k = key then (key, v) :: rest else (k, w) :: alSet rest key v

/-- Dictionary removal `d.pop(key)` (the key's presence is checked by the
caller): drops the first entry with key `key`. -/
def alRemove {α : Type} : List (String × α) → String → List (String × α)
  | [], _ => []
  | (k, v) :: rest, key => if k = key then rest else (k, v) :: alRemove rest key

/-- Type alias `InfoType = Dict[str, Any]` from `redis_shard.py`. -/
abbrev InfoType := List (String × Val)

/-! Python float arithmetic is modelled on `ℚ`.  Mathlib/Batteries mark
`Rat.add`, `Rat.sub`, … `@[irreducible]`, which blocks kernel evaluation of
concrete runs, so the embedding uses the following provably-equal reducible
forms. -/

/-- Rational addition in kernel-reducible form (provably equal to `+`). -/
def qadd (a b : ℚ) : ℚ := mkRat (a.num * b.den + b.num * a.den) (a.den * b.den)

/-- Rational subtraction in kernel-reducible form (provably equal to `-`). -/
def qsub (a b : ℚ) : ℚ := mkRat (a.num * b.den - b.num * a.den) (a.den * b.den)

/-- Maximum in kernel-reducible form (provably equal to `max`). -/
def qmax (a b : ℚ) : ℚ := if Rat.blt a b then b else a

/-- Minimum in kernel-reducible form (provably equal to `min`). -/
def qmin (a b : ℚ) : ℚ := if Rat.blt a b then a else b

theorem qadd_eq_add (a b : ℚ) : qadd a b = a + b := (Rat.add_def' a b).symm

theorem qsub_eq_sub (a b : ℚ) : qsub a b = a - b := (Rat.sub_def' a b).symm

theorem qmax_eq_max (a b : ℚ) : qmax a b = max a b := by
  by_cases h : a < b
  · rw [qmax, if_pos (show Rat.blt a b = true from h), max_eq_right h.le]
  · rw [qmax, if_neg (show ¬Rat.blt a b = true from h), max_eq_left (not_lt.mp h)]

theorem qmin_eq_min (a b : ℚ) : qmin a b = min a b := by
  by_cases h : a < b
  · rw [qmin, if_pos (show Rat.blt a b = true from h), min_eq_left h.le]
  · rw [qmin, if_neg (show ¬Rat.blt a b = true from h), min_eq_right (not_lt.mp h)]

/-! ### `redis_shard.py` — the `RedisShard` entity -/

/-- Per-shard state of `RedisShard`. The `redis_conn` field (an opaque
connection capability, never inspected by the modelled logic) is omitted.
`interval` is the private `_interval` field. -/
structure RedisShard where
  id : String
  info : Option InfoType
  info_timestamp : ℚ
  interval : ℚ
  deriving DecidableEq

namespace RedisShard

/-- Minimum polling interval permitted, in seconds (`0.5`). -/
def MIN_POLLING_INTERVAL : ℚ := mkRat 1 2

/-- Maximum polling interval permitted, in seconds (`3`). -/
def MAX_POLLING_INTERVAL : ℚ := 3

/-- Step, in seconds, by which the polling interval grows under inactivity (`0.5`). -/
def POLLING_INTERVAL_STEP : ℚ := mkRat 1 2

/-- Threshold on `instantaneous_ops_per_sec` at or above which the shard counts as active. -/
def OPS_ACTIVE_THRESH : ℚ := 10

/-- Threshold on `instantaneous_ops_per_sec` at or below which the shard counts as inactive. -/
def OPS_INACTIVE_THRESH : ℚ := 5

/-- Constructor `RedisShard.__init__`: stores the id, sets `info = None` (the property
setter's `_update_interval` returns immediately on `None`), `info_timestamp =
0.0` and `_interval = MIN_POLLING_INTERVAL`. -/
def init (ident : String) : RedisShard :=
  { id := ident
    info := none
    info_timestamp := 0
    interval := MIN_POLLING_INTERVAL }

/-- Pacing update `RedisShard._update_interval`, specialised to the `instantaneous_ops_per_sec`
value read from the freshly assigned info: drop to `MIN_POLLING_INTERVAL` when
active, grow by `POLLING_INTERVAL_STEP` when inactive, keep otherwise; then
clamp to `[MIN_POLLING_INTERVAL, MAX_POLLING_INTERVAL]`. -/
def updateInterval (interval : ℚ) (ops_sec : ℚ) : ℚ :=
  let i :=
    if ops_sec ≥ OPS_ACTIVE_THRESH then MIN_POLLING_INTERVAL
    else if ops_sec ≤ OPS_INACTIVE_THRESH then qadd interval POLLING_INTERVAL_STEP
    else interval
  qmax MIN_POLLING_INTERVAL (qmin MAX_POLLING_INTERVAL i)

/-- The `info` property setter: assigns `_info`, then runs `_update_interval`.
When the new value is `None`, `_update_interval` returns without touching the
interval. When the payload has no numeric `instantaneous_ops_per_sec`, Python
raises out of `_update_interval` *after* `_info` was already assigned, so the
post-exception state keeps the payload and the old interval. -/
def setInfo (s : RedisShard) (value : Option InfoType) : RedisShard :=
  match value with
  | none => { s with info := none }
  | some payload =>
      match alGet payload "instantaneous_ops_per_sec" with
      | some (Val.num ops_sec) =>
          { s with info := some payload, interval := updateInterval s.interval ops_sec }
      | _ => { s with info := some payload }

/-- Accessor `RedisShard.polling_interval`. -/
def polling_interval (s : RedisShard) : ℚ := s.interval

end RedisShard

/-! ### Basic association-list lemmas -/

theorem alGet_alSet_same {α : Type} (l : List (String × α)) (k : String) (v : α) :
    alGet (alSet l k v) k = some v := by
  induction l with
  | nil => simp [alGet, alSet]
  | cons hd tl ih =>
      obtain ⟨k', v'⟩ := hd
      by_cases h : k' = k <;> simp [alGet, alSet, h, ih]

theorem alGet_alSet_ne {α : Type} (l : List (String × α)) (k j : String) (v : α)
    (hne : j ≠ k) : alGet (alSet l k v) j = alGet l j := by
  induction l with
  | nil => simp [alGet, alSet, Ne.symm hne]
  | cons hd tl ih =>
      obtain ⟨k', v'⟩ := hd
      by_cases h : k' = k
      · subst h
        simp [alGet, alSet, Ne.symm hne]
      · by_cases h2 : k' = j <;> simp [alGet, alSet, h, h2, hne, ih]

theorem alSet_of_alGet_eq {α : Type} (l : List (String × α)) (k : String) (v : α)
    (h : alGet l k = some v) : alSet l k v = l := by
  induction l with
  | nil => simp [alGet] at h
  | cons hd tl ih =>
      obtain ⟨k', v'⟩ := hd
      by_cases hk : k' = k
      · subst hk
        simp [alGet] at h
        simp [alSet, h]
      · simp [alGet, hk] at h
        simp [alSet, hk, ih h]

theorem alGet_keys {α : Type} (l : List (String × α)) (k : String)
    (h : k ∉ l.map Prod.fst) : alGet l k = none := by
  induction l with
  | nil => rfl
  | cons hd tl ih =>
      obtain ⟨k', v'⟩ := hd
      rw [List.map_cons, List.mem_cons] at h
      push_neg at h
      simp [alGet, Ne.symm h.1, ih h.2]

theorem alSet_map_fst {α : Type} (l : List (String × α)) (k : String) (v w : α)
    (h : alGet l k = some w) : (alSet l k v).map Prod.fst = l.map Prod.fst := by
  induction l with
  | nil => simp [alGet] at h
  | cons hd tl ih =>
      obtain ⟨k', v'⟩ := hd
      by_cases hk : k' = k
      · subst hk
        simp [alSet]
      · simp [alGet, hk] at h
        simp [alSet, hk, ih h]

theorem alGet_alRemove_ne {α : Type} (l : List (String × α)) (k j : String)
    (hne : j ≠ k) : alGet (alRemove l k) j = alGet l j := by
  induction l with
  | nil => rfl
  | cons hd tl ih =>
      obtain ⟨k', v'⟩ := hd
      by_cases hk : k' = k
      · subst hk
        simp [alGet, alRemove, Ne.symm hne]
      · simp [alGet, alRemove, hk, ih]

theorem alGet_alRemove_same {α : Type} (l : List (String × α)) (k : String)
    (hnd : (l.map Prod.fst).Nodup) : alGet (alRemove l k) k = none := by
  induction l with
  | nil => rfl
  | cons hd tl ih =>
      obtain ⟨k', v'⟩ := hd
      rw [List.map_cons, List.nodup_cons] at hnd
      by_cases hk : k' = k
      · subst hk
        simpa [alRemove] using alGet_keys tl k' hnd.1
      · simp [alGet, alRemove, hk, ih hnd.2]

/-! ### Pacing invariant lemmas -/

theorem MIN_POLLING_INTERVAL_eq : RedisShard.MIN_POLLING_INTERVAL = 1 / 2 := by
  rw [RedisShard.MIN_POLLING_INTERVAL, Rat.mkRat_eq_divInt, Rat.divInt_eq_div]
  norm_num

theorem POLLING_INTERVAL_STEP_eq : RedisShard.POLLING_INTERVAL_STEP = 1 / 2 := by
  rw [RedisShard.POLLING_INTERVAL_STEP, Rat.mkRat_eq_divInt, Rat.divInt_eq_div]
  norm_num

theorem updateInterval_mem (i ops : ℚ) :
    RedisShard.MIN_POLLING_INTERVAL ≤ RedisShard.updateInterval i ops ∧
      RedisShard.updateInterval i ops ≤ RedisShard.MAX_POLLING_INTERVAL := by
  have hmm : RedisShard.MIN_POLLING_INTERVAL ≤ RedisShard.MAX_POLLING_INTERVAL := by
    decide
  unfold RedisShard.updateInterval
  simp only [qmax_eq_max, qmin_eq_min]
  exact ⟨le_max_left _ _, max_le hmm (min_le_left _ _)⟩

theorem setInfo_interval_mem (s : RedisShard) (v : Option InfoType)
    (h : RedisShard.MIN_POLLING_INTERVAL ≤ s.interval ∧
      s.interval ≤ RedisShard.MAX_POLLING_INTERVAL) :
    RedisShard.MIN_POLLING_INTERVAL ≤ (s.setInfo v).interval ∧
      (s.setInfo v).interval ≤ RedisShard.MAX_POLLING_INTERVAL := by
  match v with
  | none => simpa [RedisShard.setInfo] using h
  | some payload =>
      rcases hops : alGet payload "instantaneous_ops_per_sec" with _ | val
      · simpa [RedisShard.setInfo, hops] using h
      · cases val with
        | str a => simpa [RedisShard.setInfo, hops] using h
        | num q => simpa [RedisShard.setInfo, hops] using updateInterval_mem s.interval q
        | dict d => simpa [RedisShard.setInfo, hops] using h

theorem foldl_setInfo_interval_mem (s : RedisShard) (vs : List (Option InfoType))
    (h : RedisShard.MIN_POLLING_INTERVAL ≤ s.interval ∧
      s.interval ≤ RedisShard.MAX_POLLING_INTERVAL) :
    RedisShard.MIN_POLLING_INTERVAL ≤ (vs.foldl RedisShard.setInfo s).interval ∧
      (vs.foldl RedisShard.setInfo s).interval ≤ RedisShard.MAX_POLLING_INTERVAL := by
  induction vs generalizing s with
  | nil => exact h
  | cons v rest ih => exact ih _ (setInfo_interval_mem s v h)

/-! ### `shard_pub.py` — the `_ShardPublisher` registry

Subscriber callbacks are opaque to the publisher: it only stores them and
calls them.  They are modelled as opaque identifiers (`EventTarget := ℕ`),
and "calling every subscriber in the list" is modelled by emitting the event
trace `(subscriber, argument)` in list order. -/

/-- Opaque identifier standing for one `Callable[[RedisShard], None]`. -/
abbrev EventTarget := ℕ

/-- State of `_ShardPublisher`: the ADDED subscriber list (`_subs_new`), the
REMOVED subscriber list (`_subs_del`) and the live-shard dict (`_shards`). -/
structure ShardPublisher where
  subs_new : List EventTarget
  subs_del : List EventTarget
  shards : List (String × RedisShard)
  deriving DecidableEq

/-- The registry of live shards, keyed by shard id. -/
abbrev Registry := List (String × RedisShard)

namespace ShardPublisher

/-- Loop `for tgt in subs: tgt(shard)` — the synchronous notification loop,
recorded as the trace of invocations it performs, in order. -/
def notifyLoop (subs : List EventTarget) (shard : RedisShard) :
    List (EventTarget × RedisShard) :=
  subs.foldl (fun evts tgt => evts ++ [(tgt, shard)]) []

/-- Method `get_live_shards` returns `self._shards.values()`.  Under Python 2 that
expression builds a fresh list — a copy taken at call time. -/
def get_live_shards_py2 (p : ShardPublisher) : List RedisShard :=
  p.shards.map Prod.snd

/-- Under Python 3 (declared supported in `setup.py`), `self._shards.values()`
is a live `dict_values` VIEW backed by the dict, not a copy.  The view itself
carries no data; observing its elements at any moment yields the backing
dict's current values.  This function is that observation. -/
def dictValuesView (p : ShardPublisher) : List RedisShard :=
  p.shards.map Prod.snd

/-- Method `get_live_shard_ids` returns `set(self._shards.keys())` — a fresh set
built at call time from the current keys (dict keys are unique, so the list
of keys represents the set faithfully). -/
def get_live_shard_ids (p : ShardPublisher) : List String :=
  p.shards.map Prod.fst

/-- Method `get_shard`: `self._shards[identifier]`, raising `KeyError` when absent. -/
def get_shard (p : ShardPublisher) (identifier : String) : Except PyErr RedisShard :=
  match alGet p.shards identifier with
  | none => .error (.keyError identifier)
  | some shard => .ok shard

/-- Method `clear_shards`: `self._shards.clear()` — drops all shards, fires nothing. -/
def clear_shards (p : ShardPublisher) : ShardPublisher :=
  { p with shards := [] }

/-- Method `add_shard`: stores the shard under its id (`self._shards[shard.id] =
shard`, silently overwriting any existing entry), then notifies every ADDED
subscriber with the shard.  Returns the new state and the invocation trace. -/
def add_shard (p : ShardPublisher) (shard : RedisShard) :
    ShardPublisher × List (EventTarget × RedisShard) :=
  ({ p with shards := alSet p.shards shard.id shard }, notifyLoop p.subs_new shard)

/-- Method `del_shard`: `self._shards.pop(shard_id)` (raising `KeyError` when the id
is absent), then notifies every REMOVED subscriber with the popped shard. -/
def del_shard (p : ShardPublisher) (shard_id : String) :
    Except PyErr (ShardPublisher × List (EventTarget × RedisShard)) :=
  match alGet p.shards shard_id with
  | none => .error (.keyError shard_id)
  | some shard =>
      .ok ({ p with shards := alRemove p.shards shard_id }, notifyLoop p.subs_del shard)

end ShardPublisher

theorem notifyLoop_eq_map (subs : List EventTarget) (shard : RedisShard) :
    ShardPublisher.notifyLoop subs shard = subs.map (fun tgt => (tgt, shard)) := by
  have general :
      ∀ (acc : List (EventTarget × RedisShard)),
        subs.foldl (fun evts tgt => evts ++ [(tgt, shard)]) acc =
          acc ++ subs.map (fun tgt => (tgt, shard)) := by
    induction subs with
    | nil => intro acc; simp
    | cons t rest ih => intro acc; simp [ih]
  simpa [ShardPublisher.notifyLoop] using general []

/-! ### Claim theorems: pacing (C1) and the interval invariant (C8) -/

/-- Claim C1. For every shard and every newly assigned snapshot whose
`instantaneous_ops_per_sec` is `ops_sec` (the prior interval lying in the
legal range, which `claim_C8` shows invariant): at or above
`OPS_ACTIVE_THRESH` (10) the interval becomes exactly `MIN_POLLING_INTERVAL`
(0.5) regardless of its prior value; at or below `OPS_INACTIVE_THRESH` (5) it
grows by exactly `POLLING_INTERVAL_STEP` (0.5) clamped at
`MAX_POLLING_INTERVAL` (3); strictly between the thresholds it is unchanged. -/
theorem claim_C1 (s : RedisShard) (payload : InfoType) (ops_sec : ℚ)
    (hops : alGet payload "instantaneous_ops_per_sec" = some (Val.num ops_sec))
    (hlo : RedisShard.MIN_POLLING_INTERVAL ≤ s.interval)
    (hhi : s.interval ≤ RedisShard.MAX_POLLING_INTERVAL) :
    (RedisShard.OPS_ACTIVE_THRESH = 10 ∧ RedisShard.OPS_INACTIVE_THRESH = 5 ∧
      RedisShard.MIN_POLLING_INTERVAL = 1 / 2 ∧ RedisShard.MAX_POLLING_INTERVAL = 3 ∧
      RedisShard.POLLING_INTERVAL_STEP = 1 / 2) ∧
    (ops_sec ≥ RedisShard.OPS_ACTIVE_THRESH →
      (s.setInfo (some payload)).interval = RedisShard.MIN_POLLING_INTERVAL) ∧
    (ops_sec ≤ RedisShard.OPS_INACTIVE_THRESH →
      (s.setInfo (some payload)).interval =
        min RedisShard.MAX_POLLING_INTERVAL
          (s.interval + RedisShard.POLLING_INTERVAL_STEP)) ∧
    (RedisShard.OPS_INACTIVE_THRESH < ops_sec → ops_sec < RedisShard.OPS_ACTIVE_THRESH →
      (s.setInfo (some payload)).interval = s.interval) := by
  have hmm : RedisShard.MIN_POLLING_INTERVAL ≤ RedisShard.MAX_POLLING_INTERVAL := by
    decide
  refine ⟨⟨rfl, rfl, MIN_POLLING_INTERVAL_eq, rfl, POLLING_INTERVAL_STEP_eq⟩, ?_, ?_, ?_⟩
  · intro hact
    simp only [RedisShard.setInfo, hops, RedisShard.updateInterval, if_pos hact,
      qmax_eq_max, qmin_eq_min]
    rw [min_eq_right hmm, max_eq_right le_rfl]
  · intro hina
    have hnact : ¬(ops_sec ≥ RedisShard.OPS_ACTIVE_THRESH) := by
      intro hact
      exact absurd (le_trans hact hina) (by decide)
    simp only [RedisShard.setInfo, hops, RedisShard.updateInterval, if_neg hnact,
      if_pos hina, qmax_eq_max, qmin_eq_min, qadd_eq_add]
    have hge : RedisShard.MIN_POLLING_INTERVAL ≤
        min RedisShard.MAX_POLLING_INTERVAL (s.interval + RedisShard.POLLING_INTERVAL_STEP) := by
      apply le_min hmm
      have hstep : (0 : ℚ) ≤ RedisShard.POLLING_INTERVAL_STEP := by decide
      linarith
    rw [max_eq_right hge]
  · intro h1 h2
    have hnact : ¬(ops_sec ≥ RedisShard.OPS_ACTIVE_THRESH) := not_le.mpr h2
    have hnina : ¬(ops_sec ≤ RedisShard.OPS_INACTIVE_THRESH) := not_le.mpr h1
    simp only [RedisShard.setInfo, hops, RedisShard.updateInterval, if_neg hnact,
      if_neg hnina, qmax_eq_max, qmin_eq_min]
    rw [min_eq_right hhi, max_eq_right hlo]

theorem claim_C1_witness :
    (alGet [("instantaneous_ops_per_sec", Val.num 3)] "instantaneous_ops_per_sec" =
        some (Val.num 3) ∧
      RedisShard.MIN_POLLING_INTERVAL ≤ (RedisShard.init "a").interval ∧
      (RedisShard.init "a").interval ≤ RedisShard.MAX_POLLING_INTERVAL) ∧
    ((RedisShard.OPS_ACTIVE_THRESH = 10 ∧ RedisShard.OPS_INACTIVE_THRESH = 5 ∧
      RedisShard.MIN_POLLING_INTERVAL = 1 / 2 ∧ RedisShard.MAX_POLLING_INTERVAL = 3 ∧
      RedisShard.POLLING_INTERVAL_STEP = 1 / 2) ∧
    ((3 : ℚ) ≥ RedisShard.OPS_ACTIVE_THRESH →
      ((RedisShard.init "a").setInfo (some [("instantaneous_ops_per_sec", Val.num 3)])).interval =
        RedisShard.MIN_POLLING_INTERVAL) ∧
    ((3 : ℚ) ≤ RedisShard.OPS_INACTIVE_THRESH →
      ((RedisShard.init "a").setInfo (some [("instantaneous_ops_per_sec", Val.num 3)])).interval =
        min RedisShard.MAX_POLLING_INTERVAL
          ((RedisShard.init "a").interval + RedisShard.POLLING_INTERVAL_STEP)) ∧
    (RedisShard.OPS_INACTIVE_THRESH < (3 : ℚ) → (3 : ℚ) < RedisShard.OPS_ACTIVE_THRESH →
      ((RedisShard.init "a").setInfo (some [("instantaneous_ops_per_sec", Val.num 3)])).interval =
        (RedisShard.init "a").interval)) :=
  ⟨⟨by decide, by decide, by decide⟩,
    claim_C1 (RedisShard.init "a") [("instantaneous_ops_per_sec", Val.num 3)] 3
      (by decide) (by decide) (by decide)⟩

/-- Claim C8. For every shard and every sequence of snapshot assignments, the
polling interval stays within `[MIN_POLLING_INTERVAL, MAX_POLLING_INTERVAL]`;
and before any snapshot has landed (a freshly constructed shard),
`polling_interval` is exactly `MIN_POLLING_INTERVAL`. -/
theorem claim_C8 (ident : String) (vs : List (Option InfoType)) :
    (RedisShard.init ident).polling_interval = RedisShard.MIN_POLLING_INTERVAL ∧
    RedisShard.MIN_POLLING_INTERVAL ≤
      (vs.foldl RedisShard.setInfo (RedisShard.init ident)).polling_interval ∧
    (vs.foldl RedisShard.setInfo (RedisShard.init ident)).polling_interval ≤
      RedisShard.MAX_POLLING_INTERVAL := by
  refine ⟨rfl, ?_⟩
  have h1 : (RedisShard.init ident).interval ≤ RedisShard.MAX_POLLING_INTERVAL := by
    show RedisShard.MIN_POLLING_INTERVAL ≤ RedisShard.MAX_POLLING_INTERVAL
    decide
  exact foldl_setInfo_interval_mem (RedisShard.init ident) vs ⟨le_rfl, h1⟩

/-! ### Claim theorems: registry events (C7, C9) and membership snapshots (C6) -/

theorem count_map_pair (subs : List EventTarget) (sh : RedisShard) (tgt : EventTarget) :
    (subs.map (fun t => (t, sh))).count (tgt, sh) = subs.count tgt := by
  induction subs with
  | nil => rfl
  | cons t rest ih =>
      by_cases h : t = tgt
      · subst h
        simp [List.count_cons, ih]
      · simp [List.count_cons, ih, h, Prod.ext_iff]

/-- Claim C7. One `add_shard` call invokes each ADDED subscriber exactly once,
with the added shard as argument, in subscription order (the invocation trace
is exactly `subs_new` paired with the shard); one `del_shard` call on a
present id removes that id from the live set, leaves every other id
untouched, and invokes each REMOVED subscriber exactly once, with the removed
shard as argument, in subscription order. -/
theorem claim_C7 (p : ShardPublisher) (sh : RedisShard) (shard_id : String)
    (s : RedisShard) (hnd : (p.shards.map Prod.fst).Nodup)
    (hget : alGet p.shards shard_id = some s) :
    ((p.add_shard sh).2 = p.subs_new.map (fun tgt => (tgt, sh)) ∧
      ∀ tgt, (p.add_shard sh).2.count (tgt, sh) = p.subs_new.count tgt) ∧
    (∃ p', p.del_shard shard_id =
        .ok (p', p.subs_del.map (fun tgt => (tgt, s))) ∧
      alGet p'.shards shard_id = none ∧
      (∀ j, j ≠ shard_id → alGet p'.shards j = alGet p.shards j) ∧
      ∀ tgt, (p.subs_del.map (fun t => (t, s))).count (tgt, s) = p.subs_del.count tgt) := by
  refine ⟨⟨?_, ?_⟩, ?_⟩
  · simpa [ShardPublisher.add_shard] using notifyLoop_eq_map p.subs_new sh
  · intro tgt
    have htr : (p.add_shard sh).2 = p.subs_new.map (fun t => (t, sh)) := by
      simpa [ShardPublisher.add_shard] using notifyLoop_eq_map p.subs_new sh
    rw [htr]
    exact count_map_pair p.subs_new sh tgt
  · refine ⟨{ p with shards := alRemove p.shards shard_id }, ?_, ?_, ?_, ?_⟩
    · simp [ShardPublisher.del_shard, hget, notifyLoop_eq_map]
    · exact alGet_alRemove_same p.shards shard_id hnd
    · intro j hj
      exact alGet_alRemove_ne p.shards shard_id j hj
    · intro tgt
      exact count_map_pair p.subs_del s tgt

/-- Concrete publisher fixture: ADDED subscribers `[7, 9]`, REMOVED
subscriber `[4]`, one live shard `"a"`. -/
def pubC7 : ShardPublisher := ⟨[7, 9], [4], [("a", RedisShard.init "a")]⟩

theorem claim_C7_witness :
    ((pubC7.shards.map Prod.fst).Nodup ∧
      alGet pubC7.shards "a" = some (RedisShard.init "a")) ∧
    (((pubC7.add_shard (RedisShard.init "b")).2 =
        pubC7.subs_new.map (fun tgt => (tgt, RedisShard.init "b")) ∧
      ∀ tgt, (pubC7.add_shard (RedisShard.init "b")).2.count
          (tgt, RedisShard.init "b") = pubC7.subs_new.count tgt) ∧
    (∃ p', pubC7.del_shard "a" =
        .ok (p', pubC7.subs_del.map (fun tgt => (tgt, RedisShard.init "a"))) ∧
      alGet p'.shards "a" = none ∧
      (∀ j, j ≠ "a" → alGet p'.shards j = alGet pubC7.shards j) ∧
      ∀ tgt, (pubC7.subs_del.map (fun t => (t, RedisShard.init "a"))).count
          (tgt, RedisShard.init "a") = pubC7.subs_del.count tgt)) :=
  ⟨⟨by decide, by decide⟩,
    claim_C7 pubC7 (RedisShard.init "b") "a" (RedisShard.init "a")
      (by decide) (by decide)⟩

/-- Claim C9. Calling `add_shard` on an id already present never fails: it silently
replaces the stored shard under that id (the key multiset is unchanged, so
the live set keeps exactly one entry for the id, now holding the new shard),
leaves every other id untouched, and still notifies every ADDED subscriber
with the new shard. -/
theorem claim_C9 (p : ShardPublisher) (sh old : RedisShard)
    (hdup : alGet p.shards sh.id = some old)
    (hnd : (p.shards.map Prod.fst).Nodup) :
    alGet (p.add_shard sh).1.shards sh.id = some sh ∧
    (p.add_shard sh).1.shards.map Prod.fst = p.shards.map Prod.fst ∧
    ((p.add_shard sh).1.shards.map Prod.fst).count sh.id = 1 ∧
    (∀ j, j ≠ sh.id → alGet (p.add_shard sh).1.shards j = alGet p.shards j) ∧
    (p.add_shard sh).2 = p.subs_new.map (fun tgt => (tgt, sh)) := by
  have hkeys : (alSet p.shards sh.id sh).map Prod.fst = p.shards.map Prod.fst :=
    alSet_map_fst p.shards sh.id sh old hdup
  refine ⟨?_, ?_, ?_, ?_, ?_⟩
  · simpa [ShardPublisher.add_shard] using alGet_alSet_same p.shards sh.id sh
  · simpa [ShardPublisher.add_shard] using hkeys
  · have hmem : sh.id ∈ p.shards.map Prod.fst := by
      by_contra hnm
      rw [alGet_keys p.shards sh.id hnm] at hdup
      exact Option.noConfusion hdup
    have : (p.shards.map Prod.fst).count sh.id = 1 :=
      List.count_eq_one_of_mem hnd hmem
    simpa [ShardPublisher.add_shard, hkeys] using this
  · intro j hj
    simpa [ShardPublisher.add_shard] using alGet_alSet_ne p.shards sh.id j sh hj
  · simpa [ShardPublisher.add_shard] using notifyLoop_eq_map p.subs_new sh

/-- Concrete publisher fixture for overwriting `add_shard`: one ADDED
subscriber `[3]`, one live shard `"a"`. -/
def pubC9 : ShardPublisher := ⟨[3], [], [("a", RedisShard.init "a")]⟩

/-- A replacement shard with the same id `"a"` but a polled snapshot. -/
def shC9 : RedisShard :=
  RedisShard.setInfo (RedisShard.init "a")
    (some [("instantaneous_ops_per_sec", Val.num 7)])

theorem claim_C9_witness :
    (alGet pubC9.shards shC9.id = some (RedisShard.init "a") ∧
      (pubC9.shards.map Prod.fst).Nodup) ∧
    (alGet (pubC9.add_shard shC9).1.shards shC9.id = some shC9 ∧
    (pubC9.add_shard shC9).1.shards.map Prod.fst = pubC9.shards.map Prod.fst ∧
    ((pubC9.add_shard shC9).1.shards.map Prod.fst).count shC9.id = 1 ∧
    (∀ j, j ≠ shC9.id →
      alGet (pubC9.add_shard shC9).1.shards j = alGet pubC9.shards j) ∧
    (pubC9.add_shard shC9).2 = pubC9.subs_new.map (fun tgt => (tgt, shC9))) :=
  ⟨⟨by decide, by decide⟩,
    claim_C9 pubC9 shC9 (RedisShard.init "a") (by decide) (by decide)⟩

/-- Concrete publisher used to exhibit the Python-3 `dict_values` view
behaviour of `get_live_shards`. -/
def pubC6 : ShardPublisher := ⟨[], [], []⟩

/-- Claim C6, the code evaluated at the failing input: `get_live_shard_ids`
returns a fresh set (a snapshot value), but `get_live_shards` returns
`self._shards.values()`, which under Python 3 is a live view: observing the
view after a subsequent `add_shard` yields the new membership, so the
collection obtained before the mutation does not stay fixed — contradicting
both the claim and the method's own `List[RedisShard]` annotation.  (Under
Python 2, `values()` builds a fresh list, modelled by
`get_live_shards_py2`, and the claim holds.) -/
theorem claim_C6 :
    ShardPublisher.get_live_shard_ids pubC6 = [] ∧
    ShardPublisher.get_live_shards_py2 pubC6 = [] ∧
    ShardPublisher.dictValuesView pubC6 = [] ∧
    ShardPublisher.dictValuesView (pubC6.add_shard (RedisShard.init "a")).1 =
      [RedisShard.init "a"] ∧
    ShardPublisher.dictValuesView (pubC6.add_shard (RedisShard.init "a")).1 ≠
      ShardPublisher.dictValuesView pubC6 := by
  decide

/-! ### `info_servicer.py` — the `InfoProviderServicer` query engine

`GetInfos` is modelled against an explicit registry (the `_shards` dict of
the process-global `ShardPublisher`) and an explicit clock value `now`
(the `time.time()` reading).  Because Python dicts are mutable objects, the
in-place writes `msg['meta']['info_age'] = …` and
`msg['meta']['shard_identifier'] = …` act through the `meta` dict that is
*shared* between the response record and the shard's stored info (both
branches of `_filter_info` alias it), so `GetInfos` returns the updated
registry alongside the response. -/

/-- The `info_age` sentinel `1e38` used for degraded records.  (Python's
float literal `1e38` is the IEEE double nearest `10 ^ 38`; the rounding
difference is immaterial to every property stated about the sentinel — both
values exceed `10 ^ 9` and any realistic `max_age` — so the exact power of
ten is used.) -/
def infoAgeSentinel : ℚ := 10 ^ 38

/-- Python truthiness of `shard.info` (`if shard.info`): `None` and the empty
dict are falsy, a non-empty dict is truthy. -/
def infoTruthy : Option InfoType → Bool
  | none => false
  | some [] => false
  | some (_ :: _) => true

namespace InfoProviderServicer

/-- Helper `is_matching_key` (inner function of `_filter_info`): exact membership
in `keys`, or — with `prefix_matching` — `full_key.startswith(key)` for some
`key in keys`. -/
def is_matching_key (full_key : String) (keys : List String)
    (prefix_matching : Bool) : Bool :=
  if !prefix_matching then decide (full_key ∈ keys)
  else keys.any (fun key => List.isPrefixOf key.data full_key.data)

/-- Method `_filter_info`: with empty `keys` return `full_info` itself (the same
object); otherwise keep exactly the entries whose key matches, then always
add the metadata via `info['meta'] = full_info['meta']` — which raises
`KeyError('meta')` when `full_info` has no `meta` entry. -/
def _filter_info (full_info : InfoType) (keys : List String)
    (prefix_matching : Bool) : Except PyErr InfoType :=
  if keys.isEmpty then .ok full_info
  else
    let info := full_info.filter (fun kv => is_matching_key kv.1 keys prefix_matching)
    match alGet full_info "meta" with
    | none => .error (.keyError "meta")
    | some m => .ok (alSet info "meta" m)

/-- Method `_get_shard_with_info`: look the shard up in the publisher's dict
(re-raising the `KeyError` with the message `'shard {id} not found'`), then
check it has been polled (`'info for shard {id} not available'`).  The
`str(e).strip('\x27"')` in `GetInfos` exactly undoes the quoting `str` adds
around a `KeyError` argument, so the messages are modelled unquoted. -/
def _get_shard_with_info (reg : Registry) (shard_id : String) :
    Except PyErr RedisShard :=
  match alGet reg shard_id with
  | none => .error (.keyError ("shard " ++ shard_id ++ " not found"))
  | some shard =>
      match shard.info with
      | none => .error (.keyError ("info for shard " ++ shard_id ++ " not available"))
      | some _ => .ok shard

/-- The degraded record built under `allow_partial` for a failed lookup:
`{'meta': {'info_age': 1e38, 'error': str(e)…, 'shard_identifier': id}}`
(the `shard_identifier` key is added right after the `except` block). -/
def degradedRecord (emsg shard_id : String) : InfoType :=
  [("meta", Val.dict [("info_age", Val.num infoAgeSentinel),
                      ("error", Val.str emsg),
                      ("shard_identifier", Val.str shard_id)])]

/-- One iteration of the `GetInfos` loop body for `shard_id`.  The `try:`
block either raises, skips (`continue`) on the max-age check, or reaches the
meta dict of the (filtered) record; the writes of `info_age` (inside `try`)
and `shard_identifier` (right after it — no exception can occur in between
on the success path) then go through the meta dict shared between the record
and the shard's stored info, so both are updated.  Returns the record to
append (`none` when skipped) and the updated registry, or the uncaught
exception. -/
def getInfosStep (reg : Registry) (now : ℚ) (keys : List String)
    ( allow_partial : Bool) (max_age : ℚ) (prefix_matching : Bool)
    (shard_id : String) : Except PyErr (Option InfoType × Registry) :=
  let tryRes : Except PyErr (Option (InfoType × List (String × Val) × RedisShard × InfoType × ℚ)) :=
    match _get_shard_with_info reg shard_id with
    | .error e => .error e
    | .ok shard =>
        match shard.info with
        | none => .error PyErr.typeError
        | some full_info =>
            let info_age := qsub now shard.info_timestamp
            if max_age ≠ 0 ∧ info_age > max_age then .ok none
            else
              match _filter_info full_info keys prefix_matching with
              | .error e => .error e
              | .ok msg =>
                  match alGet msg "meta" with
                  | none => .error (.keyError "meta")
                  | some (Val.dict m) => .ok (some (msg, m, shard, full_info, info_age))
                  | some _ => .error PyErr.typeError
  match tryRes with
  | .ok none => .ok (none, reg)
  | .ok (some (msg, m, shard, full_info, info_age)) =>
      let meta2 := alSet (alSet m "info_age" (Val.num info_age))
        "shard_identifier" (Val.str shard_id)
      let stored := alSet full_info "meta" (Val.dict meta2)
      let record := alSet msg "meta" (Val.dict meta2)
      .ok (some record, alSet reg shard_id { shard with info := some stored })
  | .error (PyErr.keyError emsg) =>
      if allow_partial then .ok (some (degradedRecord emsg shard_id), reg)
      else .error (PyErr.keyError emsg)
  | .error PyErr.typeError => .error PyErr.typeError

/-- The `for shard_id in shards_to_query:` loop, threading the registry (the
shards' meta dicts are mutated in place) and accumulating `resp`.  An
uncaught exception aborts the loop, keeping the mutations already made. -/
def getInfosLoop (now : ℚ) (keys : List String) ( allow_partial : Bool)
    (max_age : ℚ) (prefix_matching : Bool) :
    List String → Registry → Registry × Except PyErr (List InfoType)
  | [], reg => (reg, .ok [])
  | shard_id :: rest, reg =>
      match getInfosStep reg now keys allow_partial max_age prefix_matching shard_id with
      | .error e => (reg, .error e)
      | .ok (none, reg1) =>
          getInfosLoop now keys allow_partial max_age prefix_matching rest reg1
      | .ok (some msg, reg1) =>
          match getInfosLoop now keys allow_partial max_age prefix_matching rest reg1 with
          | (reg2, .error e) => (reg2, .error e)
          | (reg2, .ok resp) => (reg2, .ok (msg :: resp))

/-- Target list `shard_ids or [shard.id for shard in ShardPublisher.get_live_shards() if
shard.info]`: an explicit non-empty `shard_ids` is used verbatim; otherwise
every live shard whose `info` is truthy is queried. -/
def shards_to_query (reg : Registry) (shard_ids : List String) : List String :=
  if shard_ids.isEmpty then
    (reg.filter (fun p => infoTruthy p.2.info)).map (fun p => p.2.id)
  else shard_ids

/-- Method `GetInfos(shard_ids, keys, allow_partial, max_age, prefix_matching)`,
against registry `reg` with clock reading `now`.  Returns the registry after
the query's in-place meta writes, and either the response list or the
propagated exception. -/
def GetInfos (reg : Registry) (now : ℚ) (shard_ids keys : List String)
    ( allow_partial : Bool) (max_age : ℚ) (prefix_matching : Bool) :
    Registry × Except PyErr (List InfoType) :=
  getInfosLoop now keys allow_partial max_age prefix_matching
    (shards_to_query reg shard_ids) reg

/-- The record `GetInfos` produces for one target id against registry state
`reg` (`none` when the id is skipped by the max-age check, or would abort the
query).  Used to state response-shape theorems. -/
def recordFor (reg : Registry) (now : ℚ) (keys : List String)
    ( allow_partial : Bool) (max_age : ℚ) (prefix_matching : Bool)
    (shard_id : String) : Option InfoType :=
  match getInfosStep reg now keys allow_partial max_age prefix_matching shard_id with
  | .ok (r, _) => r
  | .error _ => none

end InfoProviderServicer

/-- A shard's stored info, when present and carrying a `meta` entry, has a
dict there (so the query's meta writes cannot hit a `TypeError`). -/
def metaOkB (s : RedisShard) : Bool :=
  match s.info with
  | none => true
  | some d =>
      match alGet d "meta" with
      | none => true
      | some (Val.dict _) => true
      | some _ => false

/-- Every shard in the registry satisfies `metaOkB`. -/
def wfRegB (reg : Registry) : Bool := reg.all (fun p => metaOkB p.2)

/-- The id resolves to a polled shard whose info carries a `meta` dict — the
lookups and meta writes of `GetInfos` cannot raise for this id. -/
def goodShardB (reg : Registry) (shard_id : String) : Bool :=
  match alGet reg shard_id with
  | none => false
  | some s =>
      match s.info with
      | none => false
      | some d =>
          match alGet d "meta" with
          | some (Val.dict _) => true
          | _ => false

/-- The id is absent from the registry, or present but never polled
(`info is None`) — exactly the two `KeyError` cases of
`_get_shard_with_info`. -/
def badShardB (reg : Registry) (shard_id : String) : Bool :=
  match alGet reg shard_id with
  | none => true
  | some s => s.info.isNone

/-- The error message `_get_shard_with_info` raises for a bad id. -/
def badErrMsg (reg : Registry) (shard_id : String) : String :=
  match alGet reg shard_id with
  | none => "shard " ++ shard_id ++ " not found"
  | some _ => "info for shard " ++ shard_id ++ " not available"

/-! ### Claim C3: record filtering -/

theorem alGet_filter_not_mem {α : Type} (l : List (String × α))
    (f : String × α → Bool) (k : String) (h : k ∉ l.map Prod.fst) :
    alGet (l.filter f) k = none := by
  apply alGet_keys
  intro hmem
  apply h
  simp only [List.mem_map] at hmem ⊢
  obtain ⟨kv, hkv, hfst⟩ := hmem
  exact ⟨kv, (List.mem_filter.mp hkv).1, hfst⟩

theorem alGet_filter (l : List (String × α)) (q : String → Bool) (k : String)
    (hnd : (l.map Prod.fst).Nodup) :
    alGet (l.filter (fun kv => q kv.1)) k = if q k then alGet l k else none := by
  induction l with
  | nil => simp [alGet]
  | cons hd tl ih =>
      obtain ⟨k', v'⟩ := hd
      rw [List.map_cons, List.nodup_cons] at hnd
      by_cases hk : k' = k
      · subst hk
        by_cases hq : q k'
        · simp [List.filter_cons, hq, alGet]
        · simp only [List.filter_cons]
          rw [if_neg (by simpa using hq)]
          rw [alGet_filter_not_mem tl _ k' hnd.1]
          simp [alGet, hq]
      · by_cases hq : q k'
        · simp only [List.filter_cons]
          rw [if_pos (by simpa using hq)]
          simp [alGet, hk, ih hnd.2]
        · simp only [List.filter_cons]
          rw [if_neg (by simpa using hq)]
          simp [alGet, hk, ih hnd.2]

/-- Claim C3. Filtering via `_filter_info` with empty `keys` returns the full snapshot
unfiltered (the same object); with non-empty `keys` the returned record has
exactly the snapshot entries whose key matches (`is_matching_key`: exact
membership, or prefix matching when enabled) — every other key is absent —
plus the reserved `meta` sub-record, always present and equal to the
snapshot's. -/
theorem claim_C3 (full_info : InfoType) (keys : List String)
    (prefix_matching : Bool) (mv : Val)
    (hnd : (full_info.map Prod.fst).Nodup)
    (hmeta : alGet full_info "meta" = some mv) :
    InfoProviderServicer._filter_info full_info [] prefix_matching = .ok full_info ∧
    (keys ≠ [] →
      ∃ r, InfoProviderServicer._filter_info full_info keys prefix_matching = .ok r ∧
        alGet r "meta" = some mv ∧
        ∀ k, k ≠ "meta" →
          alGet r k =
            if InfoProviderServicer.is_matching_key k keys prefix_matching then
              alGet full_info k
            else none) := by
  constructor
  · simp [InfoProviderServicer._filter_info]
  · intro hkeys
    have hne : keys.isEmpty = false := by
      cases keys with
      | nil => exact absurd rfl hkeys
      | cons a l => rfl
    refine ⟨alSet (full_info.filter
        (fun kv => InfoProviderServicer.is_matching_key kv.1 keys prefix_matching))
        "meta" mv, ?_, ?_, ?_⟩
    · simp [InfoProviderServicer._filter_info, hne, hmeta]
    · exact alGet_alSet_same _ "meta" mv
    · intro k hkm
      rw [alGet_alSet_ne _ "meta" k mv hkm]
      exact alGet_filter full_info
        (fun s => InfoProviderServicer.is_matching_key s keys prefix_matching) k hnd

/-- Concrete snapshot `{x: 1, y: 2, z: 3, meta: {}}` from the spec's
filtering example. -/
def infoC3 : InfoType :=
  [("x", Val.num 1), ("y", Val.num 2), ("z", Val.num 3), ("meta", Val.dict [])]

theorem claim_C3_witness :
    ((infoC3.map Prod.fst).Nodup ∧ alGet infoC3 "meta" = some (Val.dict []) ∧
      ["x", "y"] ≠ ([] : List String)) ∧
    (InfoProviderServicer._filter_info infoC3 [] false = .ok infoC3 ∧
      ∃ r, InfoProviderServicer._filter_info infoC3 ["x", "y"] false = .ok r ∧
        alGet r "meta" = some (Val.dict []) ∧
        ∀ k, k ≠ "meta" →
          alGet r k =
            if InfoProviderServicer.is_matching_key k ["x", "y"] false then
              alGet infoC3 k
            else none) := by
  have h := claim_C3 infoC3 ["x", "y"] false (Val.dict []) (by decide) (by decide)
  exact ⟨⟨by decide, by decide, by decide⟩, h.1, h.2 (by decide)⟩

/-! ### The meta-write frame relation

One query step either leaves a registry entry alone or rewrites its stored
`meta` sub-dict with the two keys `info_age` and `shard_identifier`; nothing
else about the entry changes.  `regFrame` captures this relation between the
registry before and after any number of steps. -/

/-- The filtered entry list `_filter_info` starts from: the whole snapshot
when `keys` is empty, the matching entries otherwise. -/
def filteredEntries (d : InfoType) (keys : List String) (prefix_matching : Bool) :
    InfoType :=
  if keys.isEmpty then d
  else d.filter (fun kv => InfoProviderServicer.is_matching_key kv.1 keys prefix_matching)

/-- The meta dict after the query's two in-place writes. -/
def metaUpd (m : List (String × Val)) (age : ℚ) (shard_id : String) :
    List (String × Val) :=
  alSet (alSet m "info_age" (Val.num age)) "shard_identifier" (Val.str shard_id)

/-- A shard's stored info after the query's meta writes. -/
def storedUpd (d : InfoType) (m : List (String × Val)) (age : ℚ)
    (shard_id : String) : InfoType :=
  alSet d "meta" (Val.dict (metaUpd m age shard_id))

/-- The stored info of `s'` is that of `s` with the meta sub-dict rewritten
by the query's two writes (for the registry entry keyed `key`). -/
def metaWritten (now : ℚ) (key : String) (s s' : RedisShard) : Prop :=
  ∃ d m, s.info = some d ∧ alGet d "meta" = some (Val.dict m) ∧
    s'.info = some (storedUpd d m (qsub now s.info_timestamp) key)

/-- Frame relation between one registry entry before and after the query:
key, id, timestamp and interval unchanged; info unchanged or meta-written. -/
def entryFrame (now : ℚ) (p q : String × RedisShard) : Prop :=
  q.1 = p.1 ∧ q.2.id = p.2.id ∧ q.2.info_timestamp = p.2.info_timestamp ∧
    q.2.interval = p.2.interval ∧
    (q.2.info = p.2.info ∨ metaWritten now p.1 p.2 q.2)

/-- Frame relation between whole registries (entries in same order). -/
def regFrame (now : ℚ) (reg reg' : Registry) : Prop :=
  List.Forall₂ (entryFrame now) reg reg'

theorem alSet_alSet_same {α : Type} (l : List (String × α)) (k : String) (v w : α) :
    alSet (alSet l k v) k w = alSet l k w := by
  induction l with
  | nil => simp [alSet]
  | cons hd tl ih =>
      obtain ⟨k', v'⟩ := hd
      by_cases h : k' = k <;> simp [alSet, h, ih]

theorem metaUpd_idem (m : List (String × Val)) (age : ℚ) (shard_id : String) :
    metaUpd (metaUpd m age shard_id) age shard_id = metaUpd m age shard_id := by
  have hne : ("info_age" : String) ≠ "shard_identifier" := by decide
  have h1 : alGet (metaUpd m age shard_id) "info_age" = some (Val.num age) := by
    rw [metaUpd, alGet_alSet_ne _ _ _ _ hne, alGet_alSet_same]
  have h2 : alSet (metaUpd m age shard_id) "info_age" (Val.num age) =
      metaUpd m age shard_id := alSet_of_alGet_eq _ _ _ h1
  have h3 : alGet (metaUpd m age shard_id) "shard_identifier" =
      some (Val.str shard_id) := alGet_alSet_same _ _ _
  rw [metaUpd, h2]
  exact alSet_of_alGet_eq _ _ _ h3

theorem entryFrame_refl (now : ℚ) (p : String × RedisShard) : entryFrame now p p :=
  ⟨rfl, rfl, rfl, rfl, Or.inl rfl⟩

theorem regFrame_refl (now : ℚ) (reg : Registry) : regFrame now reg reg :=
  List.forall₂_same.mpr (fun p _ => entryFrame_refl now p)

theorem metaWritten_meta (now : ℚ) (key : String) (s s' : RedisShard) (d : InfoType)
    (h : metaWritten now key s s') (hd : s.info = some d) :
    ∃ m, alGet d "meta" = some (Val.dict m) ∧
      s'.info = some (storedUpd d m (qsub now s.info_timestamp) key) := by
  obtain ⟨d0, m, hd0, hm, hs'⟩ := h
  rw [hd] at hd0
  injection hd0 with hd0
  subst hd0
  exact ⟨m, hm, hs'⟩

theorem storedUpd_meta (d : InfoType) (m : List (String × Val)) (age : ℚ)
    (key : String) :
    alGet (storedUpd d m age key) "meta" = some (Val.dict (metaUpd m age key)) :=
  alGet_alSet_same _ _ _

theorem storedUpd_storedUpd (d : InfoType) (m : List (String × Val)) (age : ℚ)
    (key : String) :
    storedUpd (storedUpd d m age key) (metaUpd m age key) age key =
      storedUpd d m age key := by
  rw [storedUpd, metaUpd_idem]
  exact alSet_of_alGet_eq _ _ _ (storedUpd_meta d m age key)

theorem entryFrame_trans (now : ℚ) (p q r : String × RedisShard)
    (h1 : entryFrame now p q) (h2 : entryFrame now q r) : entryFrame now p r := by
  obtain ⟨hk1, hid1, hts1, hiv1, hinfo1⟩ := h1
  obtain ⟨hk2, hid2, hts2, hiv2, hinfo2⟩ := h2
  refine ⟨hk2.trans hk1, hid2.trans hid1, hts2.trans hts1, hiv2.trans hiv1, ?_⟩
  rcases hinfo1 with hsame1 | hw1
  · rcases hinfo2 with hsame2 | hw2
    · exact Or.inl (hsame2.trans hsame1)
    · refine Or.inr ?_
      obtain ⟨d, m, hd, hm, hr⟩ := hw2
      rw [hsame1] at hd
      rw [hk1, hts1] at hr
      exact ⟨d, m, hd, hm, hr⟩
  · rcases hinfo2 with hsame2 | hw2
    · refine Or.inr ?_
      obtain ⟨d, m, hd, hm, hq⟩ := hw1
      exact ⟨d, m, hd, hm, hsame2.trans hq⟩
    · refine Or.inr ?_
      obtain ⟨d, m, hd, hm, hq⟩ := hw1
      obtain ⟨m2, hm2, hr⟩ := metaWritten_meta now q.1 q.2 r.2
        (storedUpd d m (qsub now p.2.info_timestamp) p.1) hw2 hq
      rw [storedUpd_meta] at hm2
      injection hm2 with hm2
      injection hm2 with hm2
      subst hm2
      rw [hk1, hts1] at hr
      rw [storedUpd_storedUpd] at hr
      exact ⟨d, m, hd, hm, hr⟩

theorem regFrame_trans (now : ℚ) (r1 r2 r3 : Registry)
    (h1 : regFrame now r1 r2) (h2 : regFrame now r2 r3) : regFrame now r1 r3 := by
  induction h1 generalizing r3 with
  | nil => cases h2; exact List.Forall₂.nil
  | cons hpq htail ih =>
      cases h2 with
      | cons hqr htail2 =>
          exact List.Forall₂.cons (entryFrame_trans now _ _ _ hpq hqr) (ih _ htail2)

theorem regFrame_alGet_none (now : ℚ) (reg reg' : Registry)
    (h : regFrame now reg reg') (j : String) (hj : alGet reg j = none) :
    alGet reg' j = none := by
  induction h with
  | nil => rfl
  | cons hpq htail ih =>
      rename_i p q l1 l2
      obtain ⟨kp, sp⟩ := p
      obtain ⟨kq, sq⟩ := q
      obtain ⟨hk, _⟩ := hpq
      simp only at hk
      subst hk
      by_cases hkj : kq = j
      · rw [alGet, if_pos hkj] at hj
        exact Option.noConfusion hj
      · rw [alGet, if_neg hkj] at hj
        rw [alGet, if_neg hkj]
        exact ih hj

theorem regFrame_alGet_some (now : ℚ) (reg reg' : Registry)
    (h : regFrame now reg reg') (j : String) (s : RedisShard)
    (hj : alGet reg j = some s) :
    ∃ s', alGet reg' j = some s' ∧ entryFrame now (j, s) (j, s') := by
  induction h with
  | nil => simp [alGet] at hj
  | cons hpq htail ih =>
      rename_i p q l1 l2
      obtain ⟨kp, sp⟩ := p
      obtain ⟨kq, sq⟩ := q
      obtain ⟨hk, hrest⟩ := hpq
      simp only at hk
      subst hk
      by_cases hkj : kq = j
      · subst hkj
        rw [alGet, if_pos rfl] at hj
        injection hj with hj
        subst hj
        refine ⟨sq, ?_, ⟨rfl, hrest⟩⟩
        rw [alGet, if_pos rfl]
      · rw [alGet, if_neg hkj] at hj
        rw [alGet, if_neg hkj]
        exact ih hj

theorem regFrame_alSet (now : ℚ) (reg : Registry) (j : String) (s s' : RedisShard)
    (hget : alGet reg j = some s) (hframe : entryFrame now (j, s) (j, s')) :
    regFrame now reg (alSet reg j s') := by
  induction reg with
  | nil => simp [alGet] at hget
  | cons hd tl ih =>
      obtain ⟨k, v⟩ := hd
      by_cases hk : k = j
      · subst hk
        simp only [alGet, if_pos rfl] at hget
        injection hget with hget
        subst hget
        rw [alSet, if_pos rfl]
        exact List.Forall₂.cons hframe (regFrame_refl now tl)
      · simp only [alGet, if_neg hk] at hget
        rw [alSet, if_neg hk]
        exact List.Forall₂.cons (entryFrame_refl now (k, v)) (ih hget)

/-! ### Characterizing one `GetInfos` loop iteration -/

theorem alGet_mem {α : Type} (l : List (String × α)) (k : String) (v : α)
    (h : alGet l k = some v) : (k, v) ∈ l := by
  induction l with
  | nil => simp [alGet] at h
  | cons hd tl ih =>
      obtain ⟨k', v'⟩ := hd
      by_cases hk : k' = k
      · subst hk
        rw [alGet, if_pos rfl] at h
        injection h with h
        subst h
        exact List.mem_cons_self _ _
      · rw [alGet, if_neg hk] at h
        exact List.mem_cons_of_mem _ (ih h)

theorem wfRegB_lookup (reg : Registry) (j : String) (s : RedisShard)
    (hwf : wfRegB reg = true) (h : alGet reg j = some s) : metaOkB s = true := by
  rw [wfRegB, List.all_eq_true] at hwf
  exact hwf (j, s) (alGet_mem reg j s h)

theorem alSet_filter_alSet {α : Type} (l : List (String × α)) (q : String → Bool)
    (k : String) (v w : α) (hget : alGet l k = some w) :
    alSet ((alSet l k v).filter (fun kv => q kv.1)) k v =
      alSet (l.filter (fun kv => q kv.1)) k v := by
  induction l with
  | nil => simp [alGet] at hget
  | cons hd tl ih =>
      obtain ⟨k', u⟩ := hd
      by_cases hk : k' = k
      · subst hk
        rw [alSet, if_pos rfl]
        by_cases hq : q k'
        · simp [List.filter_cons, hq, alSet]
        · simp [List.filter_cons, hq]
      · rw [alGet, if_neg hk] at hget
        rw [alSet, if_neg hk]
        by_cases hq : q k'
        · simp only [List.filter_cons, hq, if_true]
          rw [alSet, if_neg hk, alSet, if_neg hk, ih hget]
        · simp only [List.filter_cons, hq, Bool.false_eq_true, if_false]
          exact ih hget

namespace InfoProviderServicer

theorem getInfosStep_not_found (reg : Registry) (now : ℚ) (keys : List String)
    (ap : Bool) (ma : ℚ) (pm : Bool) (j : String) (h : alGet reg j = none) :
    getInfosStep reg now keys ap ma pm j =
      if ap then
        .ok (some (degradedRecord ("shard " ++ j ++ " not found") j), reg)
      else .error (.keyError ("shard " ++ j ++ " not found")) := by
  simp only [getInfosStep, _get_shard_with_info, h]

theorem getInfosStep_not_polled (reg : Registry) (now : ℚ) (keys : List String)
    (ap : Bool) (ma : ℚ) (pm : Bool) (j : String) (s : RedisShard)
    (h : alGet reg j = some s) (hi : s.info = none) :
    getInfosStep reg now keys ap ma pm j =
      if ap then
        .ok (some (degradedRecord ("info for shard " ++ j ++ " not available") j), reg)
      else .error (.keyError ("info for shard " ++ j ++ " not available")) := by
  simp only [getInfosStep, _get_shard_with_info, h, hi]

theorem getInfosStep_bad (reg : Registry) (now : ℚ) (keys : List String)
    (ap : Bool) (ma : ℚ) (pm : Bool) (j : String)
    (hbad : badShardB reg j = true) :
    getInfosStep reg now keys ap ma pm j =
      if ap then .ok (some (degradedRecord (badErrMsg reg j) j), reg)
      else .error (.keyError (badErrMsg reg j)) := by
  rcases hget : alGet reg j with _ | s
  · rw [getInfosStep_not_found reg now keys ap ma pm j hget, badErrMsg, hget]
  · rw [badShardB, hget] at hbad
    have hi : s.info = none := Option.isNone_iff_eq_none.mp hbad
    rw [getInfosStep_not_polled reg now keys ap ma pm j s hget hi, badErrMsg, hget]

theorem getInfosStep_skip (reg : Registry) (now : ℚ) (keys : List String)
    (ap : Bool) (ma : ℚ) (pm : Bool) (j : String) (s : RedisShard) (d : InfoType)
    (h : alGet reg j = some s) (hi : s.info = some d)
    (hskip : ma ≠ 0 ∧ qsub now s.info_timestamp > ma) :
    getInfosStep reg now keys ap ma pm j = .ok (none, reg) := by
  simp only [getInfosStep, _get_shard_with_info, h, hi, if_pos hskip]

theorem getInfosStep_meta_missing (reg : Registry) (now : ℚ) (keys : List String)
    (ap : Bool) (ma : ℚ) (pm : Bool) (j : String) (s : RedisShard) (d : InfoType)
    (h : alGet reg j = some s) (hi : s.info = some d)
    (hnoskip : ¬(ma ≠ 0 ∧ qsub now s.info_timestamp > ma))
    (hmeta : alGet d "meta" = none) :
    getInfosStep reg now keys ap ma pm j =
      if ap then .ok (some (degradedRecord "meta" j), reg)
      else .error (.keyError "meta") := by
  by_cases hk : keys.isEmpty
  · simp only [getInfosStep, _get_shard_with_info, h, hi, if_neg hnoskip,
      _filter_info, hk, if_true, hmeta]
  · simp only [getInfosStep, _get_shard_with_info, h, hi, if_neg hnoskip,
      _filter_info, hk, Bool.false_eq_true, if_false, hmeta]

theorem getInfosStep_success (reg : Registry) (now : ℚ) (keys : List String)
    (ap : Bool) (ma : ℚ) (pm : Bool) (j : String) (s : RedisShard) (d : InfoType)
    (m : List (String × Val))
    (h : alGet reg j = some s) (hi : s.info = some d)
    (hnoskip : ¬(ma ≠ 0 ∧ qsub now s.info_timestamp > ma))
    (hmeta : alGet d "meta" = some (Val.dict m)) :
    getInfosStep reg now keys ap ma pm j =
      .ok (some (alSet (filteredEntries d keys pm) "meta"
          (Val.dict (metaUpd m (qsub now s.info_timestamp) j))),
        alSet reg j
          { s with info := some (storedUpd d m (qsub now s.info_timestamp) j) }) := by
  by_cases hk : keys.isEmpty
  · simp only [getInfosStep, _get_shard_with_info, h, hi, if_neg hnoskip,
      _filter_info, hk, if_true, hmeta, filteredEntries, metaUpd, storedUpd]
  · have hmeta2 : alGet (alSet (d.filter
        (fun kv => is_matching_key kv.1 keys pm)) "meta" (Val.dict m)) "meta" =
        some (Val.dict m) := alGet_alSet_same _ _ _
    simp only [getInfosStep, _get_shard_with_info, h, hi, if_neg hnoskip,
      _filter_info, hk, Bool.false_eq_true, if_false, hmeta, hmeta2,
      filteredEntries, metaUpd, storedUpd]
    rw [alSet_alSet_same]

theorem getInfosStep_meta_nondict (reg : Registry) (now : ℚ) (keys : List String)
    (ap : Bool) (ma : ℚ) (pm : Bool) (j : String) (s : RedisShard) (d : InfoType)
    (v : Val)
    (h : alGet reg j = some s) (hi : s.info = some d)
    (hnoskip : ¬(ma ≠ 0 ∧ qsub now s.info_timestamp > ma))
    (hmeta : alGet d "meta" = some v) (hnd : ∀ m, v ≠ Val.dict m) :
    getInfosStep reg now keys ap ma pm j = .error PyErr.typeError := by
  cases v with
  | dict m => exact absurd rfl (hnd m)
  | str a =>
      by_cases hk : keys.isEmpty
      · simp only [getInfosStep, _get_shard_with_info, h, hi, if_neg hnoskip,
          _filter_info, hk, if_true, hmeta]
      · have hmeta2 : alGet (alSet (d.filter
            (fun kv => is_matching_key kv.1 keys pm)) "meta" (Val.str a)) "meta" =
            some (Val.str a) := alGet_alSet_same _ _ _
        simp only [getInfosStep, _get_shard_with_info, h, hi, if_neg hnoskip,
          _filter_info, hk, Bool.false_eq_true, if_false, hmeta, hmeta2]
  | num q =>
      by_cases hk : keys.isEmpty
      · simp only [getInfosStep, _get_shard_with_info, h, hi, if_neg hnoskip,
          _filter_info, hk, if_true, hmeta]
      · have hmeta2 : alGet (alSet (d.filter
            (fun kv => is_matching_key kv.1 keys pm)) "meta" (Val.num q)) "meta" =
            some (Val.num q) := alGet_alSet_same _ _ _
        simp only [getInfosStep, _get_shard_with_info, h, hi, if_neg hnoskip,
          _filter_info, hk, Bool.false_eq_true, if_false, hmeta, hmeta2]

/-- One `GetInfos` iteration that completes without an uncaught exception
relates the registry before and after by the meta-write frame. -/
theorem getInfosStep_frame (reg : Registry) (now : ℚ) (keys : List String)
    (ap : Bool) (ma : ℚ) (pm : Bool) (j : String) (r : Option InfoType)
    (reg' : Registry)
    (h : getInfosStep reg now keys ap ma pm j = .ok (r, reg')) :
    regFrame now reg reg' := by
  rcases hget : alGet reg j with _ | s
  · rw [getInfosStep_not_found reg now keys ap ma pm j hget] at h
    cases ap with
    | false => simp at h
    | true =>
        simp only [if_true, Except.ok.injEq, Prod.mk.injEq] at h
        rw [← h.2]
        exact regFrame_refl now reg
  · rcases hi : s.info with _ | d
    · rw [getInfosStep_not_polled reg now keys ap ma pm j s hget hi] at h
      cases ap with
      | false => simp at h
      | true =>
          simp only [if_true, Except.ok.injEq, Prod.mk.injEq] at h
          rw [← h.2]
          exact regFrame_refl now reg
    · by_cases hskip : ma ≠ 0 ∧ qsub now s.info_timestamp > ma
      · rw [getInfosStep_skip reg now keys ap ma pm j s d hget hi hskip] at h
        simp only [Except.ok.injEq, Prod.mk.injEq] at h
        rw [← h.2]
        exact regFrame_refl now reg
      · rcases hmeta : alGet d "meta" with _ | v
        · rw [getInfosStep_meta_missing reg now keys ap ma pm j s d hget hi
            hskip hmeta] at h
          cases ap with
          | false => simp at h
          | true =>
              simp only [if_true, Except.ok.injEq, Prod.mk.injEq] at h
              rw [← h.2]
              exact regFrame_refl now reg
        · cases v with
          | dict m =>
              rw [getInfosStep_success reg now keys ap ma pm j s d m hget hi
                hskip hmeta] at h
              simp only [Except.ok.injEq, Prod.mk.injEq] at h
              rw [← h.2]
              refine regFrame_alSet now reg j s _ hget ?_
              exact ⟨rfl, rfl, rfl, rfl, Or.inr ⟨d, m, hi, hmeta, rfl⟩⟩
          | str a =>
              rw [getInfosStep_meta_nondict reg now keys ap ma pm j s d
                (Val.str a) hget hi hskip hmeta
                (fun m hc => Val.noConfusion hc)] at h
              exact Except.noConfusion h
          | num q =>
              rw [getInfosStep_meta_nondict reg now keys ap ma pm j s d
                (Val.num q) hget hi hskip hmeta
                (fun m hc => Val.noConfusion hc)] at h
              exact Except.noConfusion h

end InfoProviderServicer

theorem metaOkB_frame (now : ℚ) (p q : String × RedisShard)
    (h : entryFrame now p q) (hok : metaOkB p.2 = true) : metaOkB q.2 = true := by
  obtain ⟨_, _, _, _, hinfo⟩ := h
  rcases hinfo with hsame | hw
  · rw [metaOkB, hsame]
    exact hok
  · obtain ⟨d, m, hd, hm, hq⟩ := hw
    simp only [metaOkB, hq, storedUpd_meta]

theorem wfRegB_frame (now : ℚ) (reg reg' : Registry)
    (h : regFrame now reg reg') (hwf : wfRegB reg = true) : wfRegB reg' = true := by
  rw [wfRegB, List.all_eq_true] at hwf ⊢
  induction h with
  | nil => intro p hp; simp at hp
  | cons hpq htail ih =>
      rename_i p q l1 l2
      intro x hx
      rcases List.mem_cons.mp hx with hx | hx
      · subst hx
        exact metaOkB_frame now p x hpq (hwf p (List.mem_cons_self _ _))
      · exact ih (fun y hy => hwf y (List.mem_cons_of_mem _ hy)) x hx

theorem goodShardB_frame (now : ℚ) (reg reg' : Registry) (j : String)
    (h : regFrame now reg reg') (hg : goodShardB reg j = true) :
    goodShardB reg' j = true := by
  rcases hget : alGet reg j with _ | s
  · simp [goodShardB, hget] at hg
  · simp only [goodShardB, hget] at hg
    obtain ⟨s', hget', hframe⟩ := regFrame_alGet_some now reg reg' h j s hget
    obtain ⟨_, _, _, _, hinfo⟩ := hframe
    rcases hi : s.info with _ | d
    · simp [hi] at hg
    · simp only [hi] at hg
      rcases hinfo with hsame | hw
      · have hsame' : s'.info = s.info := hsame
        simp only [goodShardB, hget', hsame', hi]
        exact hg
      · have hw' : metaWritten now j s s' := hw
        obtain ⟨m, hm, hs'⟩ := metaWritten_meta now j s s' d hw' hi
        simp only [goodShardB, hget', hs', storedUpd_meta]

theorem badShardB_frame (now : ℚ) (reg reg' : Registry) (j : String)
    (h : regFrame now reg reg') (hb : badShardB reg j = true) :
    badShardB reg' j = true := by
  rcases hget : alGet reg j with _ | s
  · simp [badShardB, regFrame_alGet_none now reg reg' h j hget]
  · simp only [badShardB, hget] at hb
    have hi : s.info = none := Option.isNone_iff_eq_none.mp hb
    obtain ⟨s', hget', hframe⟩ := regFrame_alGet_some now reg reg' h j s hget
    obtain ⟨_, _, _, _, hinfo⟩ := hframe
    rcases hinfo with hsame | hw
    · have hsame' : s'.info = s.info := hsame
      simp [badShardB, hget', hsame', hi]
    · obtain ⟨d, m, hd, _, _⟩ := hw
      have hd' : s.info = some d := hd
      rw [hi] at hd'
      exact Option.noConfusion hd'

namespace InfoProviderServicer

/-- The record `GetInfos` produces for an id does not depend on the meta
writes earlier iterations of the same query made: re-writing `info_age` and
`shard_identifier` with the same values leaves the meta dict unchanged. -/
theorem recordFor_frame (reg reg' : Registry) (now : ℚ) (keys : List String)
    (ap : Bool) (ma : ℚ) (pm : Bool) (h : regFrame now reg reg') (j : String) :
    recordFor reg' now keys ap ma pm j = recordFor reg now keys ap ma pm j := by
  rcases hget : alGet reg j with _ | s
  · have hget' := regFrame_alGet_none now reg reg' h j hget
    simp only [recordFor, getInfosStep_not_found reg now keys ap ma pm j hget,
      getInfosStep_not_found reg' now keys ap ma pm j hget']
    cases ap <;> rfl
  · obtain ⟨s', hget', hframe⟩ := regFrame_alGet_some now reg reg' h j s hget
    obtain ⟨_, _, hts0, _, hinfo⟩ := hframe
    have hts : s'.info_timestamp = s.info_timestamp := hts0
    rcases hi : s.info with _ | d
    · have hs' : s'.info = none := by
        rcases hinfo with hsame | hw
        · rw [show s'.info = s.info from hsame, hi]
        · obtain ⟨d, m, hd, _, _⟩ := hw
          have hd' : s.info = some d := hd
          rw [hi] at hd'
          exact Option.noConfusion hd'
      simp only [recordFor,
        getInfosStep_not_polled reg now keys ap ma pm j s hget hi,
        getInfosStep_not_polled reg' now keys ap ma pm j s' hget' hs']
      cases ap <;> rfl
    · by_cases hskip : ma ≠ 0 ∧ qsub now s.info_timestamp > ma
      · have hskip' : ma ≠ 0 ∧ qsub now s'.info_timestamp > ma := by
          rw [hts]; exact hskip
        rcases hinfo with hsame | hw
        · have hs' : s'.info = some d := by
            rw [show s'.info = s.info from hsame, hi]
          simp only [recordFor,
            getInfosStep_skip reg now keys ap ma pm j s d hget hi hskip,
            getInfosStep_skip reg' now keys ap ma pm j s' d hget' hs' hskip']
        · have hw' : metaWritten now j s s' := hw
          obtain ⟨m, hm, hs'⟩ := metaWritten_meta now j s s' d hw' hi
          simp only [recordFor,
            getInfosStep_skip reg now keys ap ma pm j s d hget hi hskip,
            getInfosStep_skip reg' now keys ap ma pm j s' _ hget' hs' hskip']
      · have hskip' : ¬(ma ≠ 0 ∧ qsub now s'.info_timestamp > ma) := by
          rw [hts]; exact hskip
        rcases hinfo with hsame | hw
        · have hs' : s'.info = some d := by
            rw [show s'.info = s.info from hsame, hi]
          rcases hmeta : alGet d "meta" with _ | v
          · simp only [recordFor,
              getInfosStep_meta_missing reg now keys ap ma pm j s d hget hi
                hskip hmeta,
              getInfosStep_meta_missing reg' now keys ap ma pm j s' d hget' hs'
                hskip' hmeta]
            cases ap <;> rfl
          · cases v with
            | dict m =>
                simp only [recordFor,
                  getInfosStep_success reg now keys ap ma pm j s d m hget hi
                    hskip hmeta,
                  getInfosStep_success reg' now keys ap ma pm j s' d m hget' hs'
                    hskip' hmeta, hts]
            | str a =>
                simp only [recordFor,
                  getInfosStep_meta_nondict reg now keys ap ma pm j s d
                    (Val.str a) hget hi hskip hmeta (fun m hc => Val.noConfusion hc),
                  getInfosStep_meta_nondict reg' now keys ap ma pm j s' d
                    (Val.str a) hget' hs' hskip' hmeta (fun m hc => Val.noConfusion hc)]
            | num x =>
                simp only [recordFor,
                  getInfosStep_meta_nondict reg now keys ap ma pm j s d
                    (Val.num x) hget hi hskip hmeta (fun m hc => Val.noConfusion hc),
                  getInfosStep_meta_nondict reg' now keys ap ma pm j s' d
                    (Val.num x) hget' hs' hskip' hmeta (fun m hc => Val.noConfusion hc)]
        · have hw' : metaWritten now j s s' := hw
          obtain ⟨m, hm, hs'⟩ := metaWritten_meta now j s s' d hw' hi
          simp only [recordFor,
            getInfosStep_success reg now keys ap ma pm j s d m hget hi hskip hm,
            getInfosStep_success reg' now keys ap ma pm j s'
              (storedUpd d m (qsub now s.info_timestamp) j)
              (metaUpd m (qsub now s.info_timestamp) j) hget' hs' hskip'
              (storedUpd_meta d m (qsub now s.info_timestamp) j), hts,
            metaUpd_idem, Option.some.injEq]
          by_cases hk : keys.isEmpty
          · rw [filteredEntries, if_pos hk, filteredEntries, if_pos hk]
            rw [alSet_of_alGet_eq _ _ _ (storedUpd_meta d m (qsub now s.info_timestamp) j)]
            rfl
          · rw [filteredEntries, if_neg hk, filteredEntries, if_neg hk]
            exact alSet_filter_alSet d
              (fun key => is_matching_key key keys pm) "meta"
              (Val.dict (metaUpd m (qsub now s.info_timestamp) j)) (Val.dict m) hm

/-- Under `allow_partial = true` a well-formed registry never lets a step
raise: every iteration returns `.ok`. -/
theorem getInfosStep_partial_ok (reg : Registry) (now : ℚ) (keys : List String)
    (ma : ℚ) (pm : Bool) (j : String) (hwf : wfRegB reg = true) :
    ∃ r reg', getInfosStep reg now keys true ma pm j = .ok (r, reg') := by
  rcases hget : alGet reg j with _ | s
  · exact ⟨_, _, by rw [getInfosStep_not_found reg now keys true ma pm j hget, if_pos rfl]⟩
  · rcases hi : s.info with _ | d
    · exact ⟨_, _, by
        rw [getInfosStep_not_polled reg now keys true ma pm j s hget hi, if_pos rfl]⟩
    · by_cases hskip : ma ≠ 0 ∧ qsub now s.info_timestamp > ma
      · exact ⟨_, _, getInfosStep_skip reg now keys true ma pm j s d hget hi hskip⟩
      · rcases hmeta : alGet d "meta" with _ | v
        · exact ⟨_, _, by
            rw [getInfosStep_meta_missing reg now keys true ma pm j s d hget hi
              hskip hmeta, if_pos rfl]⟩
        · cases v with
          | dict m =>
              exact ⟨_, _,
                getInfosStep_success reg now keys true ma pm j s d m hget hi hskip hmeta⟩
          | str a =>
              have hok := wfRegB_lookup reg j s hwf hget
              simp [metaOkB, hi, hmeta] at hok
          | num x =>
              have hok := wfRegB_lookup reg j s hwf hget
              simp [metaOkB, hi, hmeta] at hok

/-- On a well-formed registry a step either returns `.ok` or raises a
`KeyError` — never the `TypeError` of a malformed meta entry. -/
theorem getInfosStep_wf_cases (reg : Registry) (now : ℚ) (keys : List String)
    (ap : Bool) (ma : ℚ) (pm : Bool) (j : String) (hwf : wfRegB reg = true) :
    (∃ r reg', getInfosStep reg now keys ap ma pm j = .ok (r, reg')) ∨
    (∃ e, getInfosStep reg now keys ap ma pm j = .error (.keyError e)) := by
  rcases hget : alGet reg j with _ | s
  · rw [getInfosStep_not_found reg now keys ap ma pm j hget]
    cases ap with
    | true => exact Or.inl ⟨_, _, by rw [if_pos rfl]⟩
    | false => exact Or.inr ⟨_, by rw [if_neg (by simp)]⟩
  · rcases hi : s.info with _ | d
    · rw [getInfosStep_not_polled reg now keys ap ma pm j s hget hi]
      cases ap with
      | true => exact Or.inl ⟨_, _, by rw [if_pos rfl]⟩
      | false => exact Or.inr ⟨_, by rw [if_neg (by simp)]⟩
    · by_cases hskip : ma ≠ 0 ∧ qsub now s.info_timestamp > ma
      · exact Or.inl ⟨_, _, getInfosStep_skip reg now keys ap ma pm j s d hget hi hskip⟩
      · rcases hmeta : alGet d "meta" with _ | v
        · rw [getInfosStep_meta_missing reg now keys ap ma pm j s d hget hi hskip hmeta]
          cases ap with
          | true => exact Or.inl ⟨_, _, by rw [if_pos rfl]⟩
          | false => exact Or.inr ⟨_, by rw [if_neg (by simp)]⟩
        · cases v with
          | dict m =>
              exact Or.inl ⟨_, _,
                getInfosStep_success reg now keys ap ma pm j s d m hget hi hskip hmeta⟩
          | str a =>
              have hok := wfRegB_lookup reg j s hwf hget
              simp [metaOkB, hi, hmeta] at hok
          | num x =>
              have hok := wfRegB_lookup reg j s hwf hget
              simp [metaOkB, hi, hmeta] at hok

/-- A step on a good id (present, polled, meta dict) returns `.ok` for either
value of `allow_partial`. -/
theorem getInfosStep_good_ok (reg : Registry) (now : ℚ) (keys : List String)
    (ap : Bool) (ma : ℚ) (pm : Bool) (j : String)
    (hg : goodShardB reg j = true) :
    ∃ r reg', getInfosStep reg now keys ap ma pm j = .ok (r, reg') := by
  rcases hget : alGet reg j with _ | s
  · simp [goodShardB, hget] at hg
  · rcases hi : s.info with _ | d
    · simp [goodShardB, hget, hi] at hg
    · rcases hmeta : alGet d "meta" with _ | v
      · simp [goodShardB, hget, hi, hmeta] at hg
      · cases v with
        | dict m =>
            by_cases hskip : ma ≠ 0 ∧ qsub now s.info_timestamp > ma
            · exact ⟨_, _, getInfosStep_skip reg now keys ap ma pm j s d hget hi hskip⟩
            · exact ⟨_, _,
                getInfosStep_success reg now keys ap ma pm j s d m hget hi hskip hmeta⟩
        | str a => simp [goodShardB, hget, hi, hmeta] at hg
        | num x => simp [goodShardB, hget, hi, hmeta] at hg

/-- The `GetInfos` loop under `allow_partial = true` on a well-formed
registry: it succeeds, the response is the target list filter-mapped through
the per-id record function (evaluated against the *initial* registry), and
the final registry is a meta-write frame of the initial one. -/
theorem getInfosLoop_allowPartial (now : ℚ) (keys : List String) (ma : ℚ) (pm : Bool)
    (ids : List String) (reg : Registry) (hwf : wfRegB reg = true) :
    ∃ reg', getInfosLoop now keys true ma pm ids reg =
        (reg', .ok (ids.filterMap (recordFor reg now keys true ma pm))) ∧
      regFrame now reg reg' ∧ wfRegB reg' = true := by
  induction ids generalizing reg with
  | nil => exact ⟨reg, rfl, regFrame_refl now reg, hwf⟩
  | cons j rest ih =>
      obtain ⟨r, reg1, hstep⟩ := getInfosStep_partial_ok reg now keys ma pm j hwf
      have hframe1 := getInfosStep_frame reg now keys true ma pm j r reg1 hstep
      have hwf1 := wfRegB_frame now reg reg1 hframe1 hwf
      obtain ⟨reg2, hloop, hframe2, hwf2⟩ := ih reg1 hwf1
      have hrec : InfoProviderServicer.recordFor reg1 now keys true ma pm =
          InfoProviderServicer.recordFor reg now keys true ma pm :=
        funext (recordFor_frame reg reg1 now keys true ma pm hframe1)
      have hrecj : recordFor reg now keys true ma pm j = r := by
        rw [recordFor, hstep]
      refine ⟨reg2, ?_, regFrame_trans now reg reg1 reg2 hframe1 hframe2, hwf2⟩
      rw [List.filterMap_cons, hrecj]
      cases r with
      | none => simp only [getInfosLoop, hstep, hloop, hrec]
      | some msg => simp only [getInfosLoop, hstep, hloop, hrec]

/-- The `GetInfos` loop when every target id is good: it succeeds for either
value of `allow_partial`, with the same filter-mapped response shape. -/
theorem getInfosLoop_good (now : ℚ) (keys : List String) (ap : Bool) (ma : ℚ)
    (pm : Bool) (ids : List String) (reg : Registry)
    (hg : ∀ j ∈ ids, goodShardB reg j = true) :
    ∃ reg', getInfosLoop now keys ap ma pm ids reg =
        (reg', .ok (ids.filterMap (recordFor reg now keys ap ma pm))) ∧
      regFrame now reg reg' := by
  induction ids generalizing reg with
  | nil => exact ⟨reg, rfl, regFrame_refl now reg⟩
  | cons j rest ih =>
      obtain ⟨r, reg1, hstep⟩ := getInfosStep_good_ok reg now keys ap ma pm j
        (hg j (List.mem_cons_self _ _))
      have hframe1 := getInfosStep_frame reg now keys ap ma pm j r reg1 hstep
      have hg1 : ∀ i ∈ rest, goodShardB reg1 i = true := fun i hi =>
        goodShardB_frame now reg reg1 i hframe1 (hg i (List.mem_cons_of_mem _ hi))
      obtain ⟨reg2, hloop, hframe2⟩ := ih reg1 hg1
      have hrec : InfoProviderServicer.recordFor reg1 now keys ap ma pm =
          InfoProviderServicer.recordFor reg now keys ap ma pm :=
        funext (recordFor_frame reg reg1 now keys ap ma pm hframe1)
      have hrecj : recordFor reg now keys ap ma pm j = r := by
        rw [recordFor, hstep]
      refine ⟨reg2, ?_, regFrame_trans now reg reg1 reg2 hframe1 hframe2⟩
      rw [List.filterMap_cons, hrecj]
      cases r with
      | none => simp only [getInfosLoop, hstep, hloop, hrec]
      | some msg => simp only [getInfosLoop, hstep, hloop, hrec]

/-- With `allow_partial = false`, a bad id anywhere in the target list makes
the whole loop abort with a `KeyError`: no response list is produced. -/
theorem getInfosLoop_abort (now : ℚ) (keys : List String) (ma : ℚ) (pm : Bool)
    (ids : List String) (reg : Registry) (jbad : String)
    (hwf : wfRegB reg = true) (hmem : jbad ∈ ids)
    (hbad : badShardB reg jbad = true) :
    ∃ e, (getInfosLoop now keys false ma pm ids reg).2 =
      .error (PyErr.keyError e) := by
  induction ids generalizing reg with
  | nil => simp at hmem
  | cons j rest ih =>
      by_cases hbadj : badShardB reg j = true
      · refine ⟨badErrMsg reg j, ?_⟩
        have hstep := getInfosStep_bad reg now keys false ma pm j hbadj
        rw [if_neg (by simp)] at hstep
        rw [getInfosLoop, hstep]
      · rcases getInfosStep_wf_cases reg now keys false ma pm j hwf with
          ⟨r, reg1, hstep⟩ | ⟨e, hstep⟩
        · have hframe1 := getInfosStep_frame reg now keys false ma pm j r reg1 hstep
          have hwf1 := wfRegB_frame now reg reg1 hframe1 hwf
          have hmem1 : jbad ∈ rest := by
            rcases List.mem_cons.mp hmem with hj | hj
            · subst hj
              exact absurd hbad hbadj
            · exact hj
          have hbad1 := badShardB_frame now reg reg1 jbad hframe1 hbad
          obtain ⟨e, hloop⟩ := ih reg1 hwf1 hmem1 hbad1
          refine ⟨e, ?_⟩
          cases r with
          | none =>
              simp only [getInfosLoop, hstep]
              exact hloop
          | some msg =>
              simp only [getInfosLoop, hstep]
              rcases hrest : getInfosLoop now keys false ma pm rest reg1 with ⟨reg2, res⟩
              rw [hrest] at hloop
              simp only at hloop
              rw [hloop]
        · exact ⟨e, by rw [getInfosLoop, hstep]⟩

/-- The registry after any `GetInfos` loop run (aborted or not) is a
meta-write frame of the registry before it. -/
theorem getInfosLoop_frame (now : ℚ) (keys : List String) (ap : Bool) (ma : ℚ)
    (pm : Bool) (ids : List String) (reg : Registry) :
    regFrame now reg (getInfosLoop now keys ap ma pm ids reg).1 := by
  induction ids generalizing reg with
  | nil => exact regFrame_refl now reg
  | cons j rest ih =>
      rcases hstep : getInfosStep reg now keys ap ma pm j with e | ⟨r, reg1⟩
      · simp only [getInfosLoop, hstep]
        exact regFrame_refl now reg
      · have hframe1 := getInfosStep_frame reg now keys ap ma pm j r reg1 hstep
        cases r with
        | none =>
            simp only [getInfosLoop, hstep]
            exact regFrame_trans now reg reg1 _ hframe1 (ih reg1)
        | some msg =>
            simp only [getInfosLoop, hstep]
            rcases hrest : getInfosLoop now keys ap ma pm rest reg1 with ⟨reg2, res⟩
            have := ih reg1
            rw [hrest] at this
            cases res with
            | error e => exact regFrame_trans now reg reg1 reg2 hframe1 this
            | ok resp => exact regFrame_trans now reg reg1 reg2 hframe1 this

end InfoProviderServicer

/-! ### Claims C2, C4, C10 (query behaviour) and C5 (frame effect) -/

/-- Claim C2. For a requested id that is absent or present-but-unpolled:
with `allow_partial = false` the whole query raises a `KeyError` and no
response list is produced; with `allow_partial = true` the query succeeds,
the response is the target list filter-mapped through the per-id record
function (so the degraded record sits at the bad id's position), and the bad
id's record is the degraded one — `meta.info_age` is the sentinel `1e38`
(far beyond `10^9` seconds), `meta.error` describes the failure
(`not found` vs `not available`), `meta.shard_identifier` is the id. -/
theorem claim_C2 (reg : Registry) (now ma : ℚ) (shard_ids keys : List String)
    (pm : Bool) (jbad : String)
    (hwf : wfRegB reg = true) (hmem : jbad ∈ shard_ids)
    (hbad : badShardB reg jbad = true) :
    (∃ e, (InfoProviderServicer.GetInfos reg now shard_ids keys false ma pm).2 =
        .error (PyErr.keyError e)) ∧
    (∃ reg', InfoProviderServicer.GetInfos reg now shard_ids keys true ma pm =
        (reg', .ok (shard_ids.filterMap
          (InfoProviderServicer.recordFor reg now keys true ma pm))) ∧
      InfoProviderServicer.recordFor reg now keys true ma pm jbad =
        some (InfoProviderServicer.degradedRecord (badErrMsg reg jbad) jbad) ∧
      InfoProviderServicer.degradedRecord (badErrMsg reg jbad) jbad =
        [("meta", Val.dict [("info_age", Val.num infoAgeSentinel),
                            ("error", Val.str (badErrMsg reg jbad)),
                            ("shard_identifier", Val.str jbad)])] ∧
      infoAgeSentinel > 10 ^ 9 ∧
      (alGet reg jbad = none →
        badErrMsg reg jbad = "shard " ++ jbad ++ " not found") ∧
      (∀ s, alGet reg jbad = some s →
        badErrMsg reg jbad = "info for shard " ++ jbad ++ " not available")) := by
  have hne : shard_ids.isEmpty = false := by
    cases shard_ids with
    | nil => simp at hmem
    | cons a l => rfl
  have htargets : InfoProviderServicer.shards_to_query reg shard_ids = shard_ids := by
    rw [InfoProviderServicer.shards_to_query, hne]
    simp
  constructor
  · obtain ⟨e, habort⟩ := InfoProviderServicer.getInfosLoop_abort now keys ma pm
      shard_ids reg jbad hwf hmem hbad
    refine ⟨e, ?_⟩
    rw [InfoProviderServicer.GetInfos, htargets]
    exact habort
  · obtain ⟨reg', hloop, _, _⟩ := InfoProviderServicer.getInfosLoop_allowPartial now keys
      ma pm shard_ids reg hwf
    refine ⟨reg', ?_, ?_, rfl, by decide, ?_, ?_⟩
    · rw [InfoProviderServicer.GetInfos, htargets]
      exact hloop
    · rw [InfoProviderServicer.recordFor,
        InfoProviderServicer.getInfosStep_bad reg now keys true ma pm jbad hbad,
        if_pos rfl]
    · intro h
      rw [badErrMsg, h]
    · intro s h
      rw [badErrMsg, h]

/-- Concrete registry for the partial-failure witnesses: only `shard-1` is
live and polled. -/
def shardC2 : RedisShard :=
  ⟨"shard-1", some [("dummy", Val.str "dummy"), ("meta", Val.dict [])], 0, 1⟩

def regC2 : Registry := [("shard-1", shardC2)]

theorem claim_C2_witness :
    (wfRegB regC2 = true ∧ "shard-2" ∈ ["shard-1", "shard-2"] ∧
      badShardB regC2 "shard-2" = true) ∧
    ((∃ e, (InfoProviderServicer.GetInfos regC2 1 ["shard-1", "shard-2"] [] false 0
        false).2 = .error (PyErr.keyError e)) ∧
    (∃ reg', InfoProviderServicer.GetInfos regC2 1 ["shard-1", "shard-2"] [] true 0
        false =
        (reg', .ok (["shard-1", "shard-2"].filterMap
          (InfoProviderServicer.recordFor regC2 1 [] true 0 false))) ∧
      InfoProviderServicer.recordFor regC2 1 [] true 0 false "shard-2" =
        some (InfoProviderServicer.degradedRecord (badErrMsg regC2 "shard-2")
          "shard-2") ∧
      InfoProviderServicer.degradedRecord (badErrMsg regC2 "shard-2") "shard-2" =
        [("meta", Val.dict [("info_age", Val.num infoAgeSentinel),
                            ("error", Val.str (badErrMsg regC2 "shard-2")),
                            ("shard_identifier", Val.str "shard-2")])] ∧
      infoAgeSentinel > 10 ^ 9 ∧
      (alGet regC2 "shard-2" = none →
        badErrMsg regC2 "shard-2" = "shard " ++ "shard-2" ++ " not found") ∧
      (∀ s, alGet regC2 "shard-2" = some s →
        badErrMsg regC2 "shard-2" =
          "info for shard " ++ "shard-2" ++ " not available"))) :=
  ⟨⟨by decide, by decide, by decide⟩,
    claim_C2 regC2 1 0 ["shard-1", "shard-2"] [] false "shard-2"
      (by decide) (by decide) (by decide)⟩

/-- Claim C4. With a non-zero `max_age` and every target id resolving to a
polled shard (with a well-formed meta): the query succeeds, the response is
the target list filter-mapped through the per-id record function, and a
shard's record is omitted (`none`, contributing nothing to the response, with
no error) exactly when its age `now - info_timestamp` is strictly greater
than `max_age`; it is included exactly when its age is at most `max_age`. -/
theorem claim_C4 (reg : Registry) (now ma : ℚ) (shard_ids keys : List String)
    (ap pm : Bool) (hma : ma ≠ 0)
    (hgood : ∀ j ∈ InfoProviderServicer.shards_to_query reg shard_ids,
      goodShardB reg j = true) :
    ∃ reg', InfoProviderServicer.GetInfos reg now shard_ids keys ap ma pm =
        (reg', .ok ((InfoProviderServicer.shards_to_query reg shard_ids).filterMap
          (InfoProviderServicer.recordFor reg now keys ap ma pm))) ∧
      ∀ j ∈ InfoProviderServicer.shards_to_query reg shard_ids, ∀ s,
        alGet reg j = some s →
        ((InfoProviderServicer.recordFor reg now keys ap ma pm j = none ↔
            now - s.info_timestamp > ma) ∧
          ((∃ r, InfoProviderServicer.recordFor reg now keys ap ma pm j = some r) ↔
            now - s.info_timestamp ≤ ma)) := by
  obtain ⟨reg', hloop, _⟩ := InfoProviderServicer.getInfosLoop_good now keys ap ma
    pm (InfoProviderServicer.shards_to_query reg shard_ids) reg hgood
  refine ⟨reg', ?_, ?_⟩
  · rw [InfoProviderServicer.GetInfos]
    exact hloop
  · intro j hj s hget
    have hg := hgood j hj
    rcases hi : s.info with _ | d
    · simp [goodShardB, hget, hi] at hg
    · rcases hmeta : alGet d "meta" with _ | v
      · simp [goodShardB, hget, hi, hmeta] at hg
      · cases v with
        | str a => simp [goodShardB, hget, hi, hmeta] at hg
        | num x => simp [goodShardB, hget, hi, hmeta] at hg
        | dict m =>
            by_cases hage : now - s.info_timestamp > ma
            · have hskip : ma ≠ 0 ∧ qsub now s.info_timestamp > ma := by
                rw [qsub_eq_sub]
                exact ⟨hma, hage⟩
              have hrec : InfoProviderServicer.recordFor reg now keys ap ma pm j =
                  none := by
                rw [InfoProviderServicer.recordFor,
                  InfoProviderServicer.getInfosStep_skip reg now keys ap ma pm j s d
                    hget hi hskip]
              constructor
              · exact ⟨fun _ => hage, fun _ => hrec⟩
              · constructor
                · intro ⟨r, hr⟩
                  rw [hrec] at hr
                  exact Option.noConfusion hr
                · intro hle
                  exact absurd hage (not_lt.mpr hle)
            · have hskip : ¬(ma ≠ 0 ∧ qsub now s.info_timestamp > ma) := by
                rw [qsub_eq_sub]
                intro ⟨_, hgt⟩
                exact hage hgt
              have hrec : InfoProviderServicer.recordFor reg now keys ap ma pm j =
                  some (alSet (filteredEntries d keys pm) "meta"
                    (Val.dict (metaUpd m (qsub now s.info_timestamp) j))) := by
                rw [InfoProviderServicer.recordFor,
                  InfoProviderServicer.getInfosStep_success reg now keys ap ma pm j
                    s d m hget hi hskip hmeta]
              constructor
              · constructor
                · intro hnone
                  rw [hrec] at hnone
                  exact Option.noConfusion hnone
                · intro hgt
                  exact absurd hgt hage
              · exact ⟨fun _ => not_lt.mp hage, fun _ => ⟨_, hrec⟩⟩

/-- Concrete registry for the max-age witness: `fresh` polled 4 seconds ago,
`stale` polled 6 seconds ago (clock reading `now = 10`). -/
def shardFresh : RedisShard :=
  ⟨"fresh", some [("x", Val.num 1), ("meta", Val.dict [])], 6, 1⟩

def shardStale : RedisShard :=
  ⟨"stale", some [("x", Val.num 2), ("meta", Val.dict [])], 4, 1⟩

def regC4 : Registry := [("fresh", shardFresh), ("stale", shardStale)]

theorem claim_C4_witness :
    ((5 : ℚ) ≠ 0 ∧
      ∀ j ∈ InfoProviderServicer.shards_to_query regC4 ["fresh", "stale"],
        goodShardB regC4 j = true) ∧
    (∃ reg', InfoProviderServicer.GetInfos regC4 10 ["fresh", "stale"] [] false 5
        false =
        (reg', .ok ((InfoProviderServicer.shards_to_query regC4
          ["fresh", "stale"]).filterMap
          (InfoProviderServicer.recordFor regC4 10 [] false 5 false))) ∧
      ∀ j ∈ InfoProviderServicer.shards_to_query regC4 ["fresh", "stale"], ∀ s,
        alGet regC4 j = some s →
        ((InfoProviderServicer.recordFor regC4 10 [] false 5 false j = none ↔
            (10 : ℚ) - s.info_timestamp > 5) ∧
          ((∃ r, InfoProviderServicer.recordFor regC4 10 [] false 5 false j =
              some r) ↔ (10 : ℚ) - s.info_timestamp ≤ 5))) :=
  ⟨⟨by decide, by decide⟩,
    claim_C4 regC4 10 5 ["fresh", "stale"] [] false false (by decide) (by decide)⟩

/-- Claim C10. With `allow_partial = true` and a non-zero `max_age` below the
sentinel, a degraded error record for a missing or never-polled id is still
included in the response — the max-age skip applies only to successful
lookups — even though its `meta.info_age` (the sentinel) exceeds `max_age`. -/
theorem claim_C10 (reg : Registry) (now ma : ℚ) (shard_ids keys : List String)
    (pm : Bool) (jbad : String)
    (hwf : wfRegB reg = true) (hmem : jbad ∈ shard_ids)
    (hbad : badShardB reg jbad = true)
    (hma0 : ma ≠ 0) (hma : ma < infoAgeSentinel) :
    ∃ reg' resp, InfoProviderServicer.GetInfos reg now shard_ids keys true ma pm =
        (reg', .ok resp) ∧
      InfoProviderServicer.degradedRecord (badErrMsg reg jbad) jbad ∈ resp ∧
      alGet (InfoProviderServicer.degradedRecord (badErrMsg reg jbad) jbad)
          "meta" =
        some (Val.dict [("info_age", Val.num infoAgeSentinel),
                        ("error", Val.str (badErrMsg reg jbad)),
                        ("shard_identifier", Val.str jbad)]) ∧
      infoAgeSentinel > ma := by
  have hne : shard_ids.isEmpty = false := by
    cases shard_ids with
    | nil => simp at hmem
    | cons a l => rfl
  have htargets : InfoProviderServicer.shards_to_query reg shard_ids = shard_ids := by
    rw [InfoProviderServicer.shards_to_query, hne]
    simp
  obtain ⟨reg', hloop, _, _⟩ := InfoProviderServicer.getInfosLoop_allowPartial now keys
    ma pm shard_ids reg hwf
  have hrec : InfoProviderServicer.recordFor reg now keys true ma pm jbad =
      some (InfoProviderServicer.degradedRecord (badErrMsg reg jbad) jbad) := by
    rw [InfoProviderServicer.recordFor,
      InfoProviderServicer.getInfosStep_bad reg now keys true ma pm jbad hbad,
      if_pos rfl]
  refine ⟨reg',
    shard_ids.filterMap (InfoProviderServicer.recordFor reg now keys true ma pm),
    ?_, ?_, rfl, hma⟩
  · rw [InfoProviderServicer.GetInfos, htargets]
    exact hloop
  · exact List.mem_filterMap.mpr ⟨jbad, hmem, hrec⟩

theorem claim_C10_witness :
    (wfRegB regC2 = true ∧ "shard-2" ∈ ["shard-1", "shard-2"] ∧
      badShardB regC2 "shard-2" = true ∧ (5 : ℚ) ≠ 0 ∧ (5 : ℚ) < infoAgeSentinel) ∧
    (∃ reg' resp, InfoProviderServicer.GetInfos regC2 10 ["shard-1", "shard-2"] []
        true 5 false = (reg', .ok resp) ∧
      InfoProviderServicer.degradedRecord (badErrMsg regC2 "shard-2") "shard-2" ∈
        resp ∧
      alGet (InfoProviderServicer.degradedRecord (badErrMsg regC2 "shard-2")
          "shard-2") "meta" =
        some (Val.dict [("info_age", Val.num infoAgeSentinel),
                        ("error", Val.str (badErrMsg regC2 "shard-2")),
                        ("shard_identifier", Val.str "shard-2")]) ∧
      infoAgeSentinel > 5) :=
  ⟨⟨by decide, by decide, by decide, by decide, by decide⟩,
    claim_C10 regC2 10 5 ["shard-1", "shard-2"] [] false "shard-2"
      (by decide) (by decide) (by decide) (by decide) (by decide)⟩

/-- Claim C5, amended. A `GetInfos` query never changes the registry's
membership or order, nor any shard's `id`, `info_timestamp` or polling
interval, and it never runs a shard's pacing update; but it is *not* free of
writes: for each shard it returns successfully, the two keys `info_age`
(set to `now - info_timestamp`) and `shard_identifier` are written into the
shard's **stored** `meta` sub-dict, because the response record's meta dict
aliases the stored one.  Every other part of the stored snapshot is
unchanged. -/
theorem claim_C5 (reg : Registry) (now : ℚ) (shard_ids keys : List String)
    (ap : Bool) (ma : ℚ) (pm : Bool) :
    regFrame now reg
      (InfoProviderServicer.GetInfos reg now shard_ids keys ap ma pm).1 :=
  InfoProviderServicer.getInfosLoop_frame now keys ap ma pm
    (InfoProviderServicer.shards_to_query reg shard_ids) reg

/-- Concrete one-shard registry whose stored meta dict is empty before the
query. -/
def shardC5 : RedisShard :=
  ⟨"a", some [("instantaneous_ops_per_sec", Val.num 7), ("meta", Val.dict [])],
    0, 1⟩

def regC5 : Registry := [("a", shardC5)]

deriving instance DecidableEq for Except

/-- Claim C5, counterexample to the claim as stated: running
`GetInfos(['a'])` against a registry holding one polled shard `a` (empty
stored meta, snapshot timestamp 0, clock 1) returns normally — yet the
registry afterwards differs from the registry before: the stored snapshot's
meta dict now contains `info_age` and `shard_identifier`.  So the query does
have a side effect beyond reads. -/
theorem claim_C5_counterexample :
    (InfoProviderServicer.GetInfos regC5 1 ["a"] [] false 0 false).2 =
      .ok [[("instantaneous_ops_per_sec", Val.num 7),
            ("meta", Val.dict [("info_age", Val.num 1),
                               ("shard_identifier", Val.str "a")])]] ∧
    (InfoProviderServicer.GetInfos regC5 1 ["a"] [] false 0 false).1 ≠ regC5 := by
  decide

end RedisInfoProvider
